import Mathlib

/-!
Verification of the tg-monitor core against its specification.

Shallow embedding of the relevant parts of the source:
* `src/summarizer.py` — chunked map-reduce summarization, the LLM retry loop
  and the credential slot pool, the Markdown scrubber;
* `src/alerts.py` — FIFO-bounded alert deduplication and the runtime
  enabled flag;
* `src/collector.py` — the realtime alert gate;
* `src/db/messages.py` — message insert (with inline URL extraction),
  text update and delete;
* `src/db/analytics.py` — top-sender and per-group statistics queries.

Python regular expressions are modelled over their ASCII semantics for the
character classes `\s` and `\w` (all concrete inputs used in the theorems are
ASCII or CJK text where this is exact).  Recursions that are not structural
on the scanned list take a fuel argument; the wrappers pass the list length,
which is always sufficient because every recursive call consumes at least
one character of the input.
-/

namespace TgMonitor

/-- Python `\s` character class, ASCII part: space, tab, newline, carriage
return, vertical tab, form feed. -/
def pyIsSpace (c : Char) : Bool :=
  c == ' ' || c == '\t' || c == '\n' || c == '\r' || c == Char.ofNat 11 || c == Char.ofNat 12

/-- Python `\w` character class, ASCII part: letters, digits, underscore. -/
def pyIsWord (c : Char) : Bool :=
  c.isAlphanum || c == '_'

/-- The backtick character (written via its code point). -/
def backtick : Char := Char.ofNat 96

/-- Match of `^\s{0,3}#{1,6}\s+` at a line start (from `_clean_markdown`
step 1 in `src/summarizer.py`): up to three leading whitespace characters,
one to six `#`, then at least one whitespace character (all greedy; the
character classes are disjoint from `#`, so greedy matching needs no
backtracking).  Returns `(consumed, rest)` on success. -/
def headingMatch (l : List Char) : Option (List Char × List Char) :=
  let ws := l.takeWhile (fun c => pyIsSpace c)
  if ws.length ≤ 3 then
    let l1 := l.drop ws.length
    let hs := l1.takeWhile (fun c => c == '#')
    if 1 ≤ hs.length ∧ hs.length ≤ 6 then
      let l2 := l1.drop hs.length
      let ws2 := l2.takeWhile (fun c => pyIsSpace c)
      if 1 ≤ ws2.length then some (ws ++ hs ++ ws2, l2.drop ws2.length)
      else none
    else none
  else none

/-- `re.sub(r'^\s{0,3}#{1,6}\s+', '', text, flags=re.MULTILINE)`:
scan left to right; at every line start try `headingMatch` and drop the
matched text.  `lineStart` tracks whether the current position follows a
newline (or is the start of the string). -/
def stripHeadings (fuel : Nat) (lineStart : Bool) (l : List Char) : List Char :=
  match fuel with
  | 0 => l
  | fuel + 1 =>
    match l with
    | [] => []
    | c :: cs =>
      if lineStart then
        match headingMatch (c :: cs) with
        | some (consumed, rest) =>
          stripHeadings fuel (consumed.getLast? == some '\n') rest
        | none => c :: stripHeadings fuel (c == '\n') cs
      else c :: stripHeadings fuel (c == '\n') cs

/-- Shortest split of `l` into a non-empty `content` followed by the closing
delimiter `cl`: models the non-greedy `(.+?)` (with `re.DOTALL`, so any
character matches) followed by a literal delimiter. -/
def findCloseSplit (cl : List Char) : List Char → Option (List Char × List Char)
  | [] => none
  | c :: cs =>
    if cl.isPrefixOf cs then some ([c], cs.drop cl.length)
    else
      match findCloseSplit cl cs with
      | some (content, rest) => some (c :: content, rest)
      | none => none

/-- `re.sub(op + '(.+?)' + cl, r'\1', text, flags=re.DOTALL)` for literal
delimiter strings `op`, `cl`: at the leftmost position where the opening
delimiter matches and a closing delimiter follows a non-empty content, keep
the (shortest) content and continue after the match; otherwise advance one
character.  Used for the `***`, `**`, `__`, `*` and `_` emphasis subs of
`_clean_markdown` step 2. -/
def subDelimited (fuel : Nat) (op cl : List Char) (l : List Char) : List Char :=
  match fuel with
  | 0 => l
  | fuel + 1 =>
    match l with
    | [] => []
    | c :: cs =>
      if op.isPrefixOf (c :: cs) then
        match findCloseSplit cl ((c :: cs).drop op.length) with
        | some (content, rest) => content ++ subDelimited fuel op cl rest
        | none => c :: subDelimited fuel op cl cs
      else c :: subDelimited fuel op cl cs

/-- Match of `^[ \t]*[*\-+]\s+` at a line start (`_clean_markdown` step 3):
optional indent, one bullet character, at least one whitespace character. -/
def bulletMatch (l : List Char) : Option (List Char × List Char) :=
  let ind := l.takeWhile (fun c => c == ' ' || c == '\t')
  match l.drop ind.length with
  | [] => none
  | b :: rest =>
    if b == '*' || b == '-' || b == '+' then
      let ws := rest.takeWhile (fun c => pyIsSpace c)
      if 1 ≤ ws.length then some (ind ++ [b] ++ ws, rest.drop ws.length)
      else none
    else none

/-- `re.sub(r'^[ \t]*[*\-+]\s+', '• ', text, flags=re.MULTILINE)`. -/
def subBullets (fuel : Nat) (lineStart : Bool) (l : List Char) : List Char :=
  match fuel with
  | 0 => l
  | fuel + 1 =>
    match l with
    | [] => []
    | c :: cs =>
      if lineStart then
        match bulletMatch (c :: cs) with
        | some (consumed, rest) =>
          '•' :: ' ' :: subBullets fuel (consumed.getLast? == some '\n') rest
        | none => c :: subBullets fuel (c == '\n') cs
      else c :: subBullets fuel (c == '\n') cs

/-- `re.sub` for the inline-code pattern of `_clean_markdown` step 4
(one to three backticks, a non-empty run of non-backticks, one to three
backticks).  A match needs the opening backtick run to have length at most
three (a longer run makes every opening choice collide with a backtick as
first content character), a non-empty content and at least one closing
backtick; the greedy closing run takes at most three backticks. -/
def subInlineCode (fuel : Nat) (l : List Char) : List Char :=
  match fuel with
  | 0 => l
  | fuel + 1 =>
    match l with
    | [] => []
    | c :: cs =>
      if c == backtick then
        let run := (c :: cs).takeWhile (fun x => x == backtick)
        if run.length ≤ 3 then
          let after := (c :: cs).drop run.length
          let content := after.takeWhile (fun x => x != backtick)
          let closing := (after.drop content.length).takeWhile (fun x => x == backtick)
          if 1 ≤ content.length ∧ 1 ≤ closing.length then
            content ++ subInlineCode fuel (after.drop (content.length + min closing.length 3))
          else c :: subInlineCode fuel cs
        else c :: subInlineCode fuel cs
      else c :: subInlineCode fuel cs

/-- `re.sub(r'(?<!\w)X+(?!\w)', '', text)` for a target character `X`
(`*` or `#`, `_clean_markdown` step 5).  At a position whose predecessor is
not a word character, the greedy `X+` takes the whole run when the character
after the run is not a word character; otherwise backtracking gives up one
`X` (whose successor is then the non-word `X` itself), which only succeeds
when the run has at least two characters. -/
def subStray (fuel : Nat) (t : Char) (prev : Option Char) (l : List Char) : List Char :=
  match fuel with
  | 0 => l
  | fuel + 1 =>
    match l with
    | [] => []
    | c :: cs =>
      let prevIsWord := match prev with
        | some p => pyIsWord p
        | none => false
      if c == t && !prevIsWord then
        let run := (c :: cs).takeWhile (fun x => x == t)
        let after := (c :: cs).drop run.length
        let nextIsWord := match after with
          | [] => false
          | a :: _ => pyIsWord a
        if !nextIsWord then subStray fuel t (some t) after
        else if 2 ≤ run.length then subStray fuel t (some t) (t :: after)
        else c :: subStray fuel t (some c) cs
      else c :: subStray fuel t (some c) cs

/-- `re.sub(r'\n{3,}', '\n\n', text)` (`_clean_markdown` step 6). -/
def collapseBlankLines (fuel : Nat) (l : List Char) : List Char :=
  match fuel with
  | 0 => l
  | fuel + 1 =>
    match l with
    | [] => []
    | c :: cs =>
      if c == '\n' then
        let run := (c :: cs).takeWhile (fun x => x == '\n')
        (if 3 ≤ run.length then ['\n', '\n'] else run) ++
          collapseBlankLines fuel ((c :: cs).drop run.length)
      else c :: collapseBlankLines fuel cs

/-- Python `str.strip()` (ASCII whitespace). -/
def pyStrip (l : List Char) : List Char :=
  ((l.dropWhile (fun c => pyIsSpace c)).reverse.dropWhile (fun c => pyIsSpace c)).reverse

/-- `Summarizer._clean_markdown` from `src/summarizer.py`: the six
substitution steps in source order followed by `strip()`; the empty string
is returned unchanged. -/
def clean_markdown (s : String) : String :=
  if s = "" then ""
  else
    let l0 := s.data
    let l1 := stripHeadings l0.length true l0
    let l2 := subDelimited l1.length ['*', '*', '*'] ['*', '*', '*'] l1
    let l3 := subDelimited l2.length ['*', '*'] ['*', '*'] l2
    let l4 := subDelimited l3.length ['_', '_'] ['_', '_'] l3
    let l5 := subDelimited l4.length ['*'] ['*'] l4
    let l6 := subDelimited l5.length ['_'] ['_'] l5
    let l7 := subBullets l6.length true l6
    let l8 := subInlineCode l7.length l7
    let l9 := subStray l8.length '*' none l8
    let l10 := subStray l9.length '#' none l9
    let l11 := collapseBlankLines l10.length l10
    String.mk (pyStrip l11)

/-! ### Summarizer: message formatting and chunked map-reduce
(`Summarizer._format_messages`, `Summarizer._summarize_chunked`,
`Summarizer.summarize` in `src/summarizer.py`). -/

/-- A row of the `messages` window as consumed by the summarizer.  The
claims' scenarios only involve non-null text, so `text` is a plain string
here; the full row shape used by the store layer is `MsgRow` below. -/
structure MsgRec where
  id : Int
  group_id : Int
  sender_name : String
  text : String
  date : String
  media_type : Option String
  forward_from : Option String
  reply_to_id : Option Int
deriving Repr, DecidableEq

/-- `group_map.get(gid, f"群组{gid}")`. -/
def groupTitle (groupMap : List (Int × String)) (gid : Int) : String :=
  match groupMap.find? (fun p => p.1 == gid) with
  | some p => p.2
  | none => "群组" ++ toString gid

/-- The `'='*40` separator line. -/
def eqLine40 : String := String.mk (List.replicate 40 '=')

/-- One formatted message line of `_format_messages`: localized date
(`date[:19].replace("T", " ")`), sender, text with the over-500-character
truncation (`first 250 + marker + last 250`), and the media/forward/reply
extras (each one skipped when its field is Python-falsy). -/
def formatOneMsg (m : MsgRec) : String :=
  let date_str := String.mk ((m.date.data.take 19).map (fun c => if c == 'T' then ' ' else c))
  let extras : List String :=
    (match m.media_type with
      | some mt => if mt ≠ "" then ["[" ++ mt ++ "]"] else []
      | none => []) ++
    (match m.forward_from with
      | some ff => if ff ≠ "" then ["[转发自: " ++ ff ++ "]"] else []
      | none => []) ++
    (match m.reply_to_id with
      | some rid => if rid ≠ 0 then ["[回复#" ++ toString rid ++ "]"] else []
      | none => [])
  let extra_str := " ".intercalate extras
  let text :=
    if 500 < m.text.length then
      m.text.take 250 ++ "\n...[长文本截断]...\n" ++ m.text.drop (m.text.length - 250)
    else m.text
  "[" ++ date_str ++ "] " ++ m.sender_name ++ ": " ++ text ++
    (if extra_str ≠ "" then " " ++ extra_str else "")

/-- Line accumulation of `_format_messages`: a three-line group header is
emitted whenever `group_id` differs from the previous message's. -/
def formatMessagesGo (groupMap : List (Int × String)) (current : Option Int) :
    List MsgRec → List String
  | [] => []
  | m :: rest =>
    (if current ≠ some m.group_id then
      ["\n" ++ eqLine40, "📌 群组: " ++ groupTitle groupMap m.group_id, eqLine40]
    else []) ++
    (formatOneMsg m :: formatMessagesGo groupMap (some m.group_id) rest)

/-- `Summarizer._format_messages`. -/
def format_messages (msgs : List MsgRec) (groupMap : List (Int × String)) : String :=
  "\n".intercalate (formatMessagesGo groupMap none msgs)

/-- One LLM request issued by `Summarizer._call_llm`: the assembled system
prompt, the user content, and whether it was a merge call. -/
structure LLMReq where
  system : String
  user : String
  isMerge : Bool
deriving Repr, DecidableEq

/-- Default system prompt of `_call_llm` (used when the configured
`summary_system_prompt` is empty). -/
def defaultSystemPrompt : String :=
  "你是一个 Telegram 群聊分析助手，请用中文输出结构化摘要。请使用纯文本格式，不要使用 Markdown 语法（不要用 # * ** __ 等符号），改用数字编号和物理换行来排版。"

/-- System prompt of `_call_llm` for merge calls (`is_merge=True`). -/
def mergeSystemPrompt : String :=
  "你是一个信息合并助手。请将多个分析结果合并为一份结构化摘要。请使用纯文本格式，不要使用 Markdown 语法（不要用 # * ** __ 等符号）。"

/-- Request assembly of `_call_llm`: choose the system prompt, then append
the extra instruction on a new line when non-empty. -/
def mkLLMReq (sysPrompt content extra : String) (isMerge : Bool) : LLMReq :=
  let base := if isMerge then mergeSystemPrompt
    else if sysPrompt ≠ "" then sysPrompt else defaultSystemPrompt
  ⟨if extra ≠ "" then base ++ "\n" ++ extra else base, content, isMerge⟩

/-- Python `sep.join(l)`. -/
def joinSep (sep : String) : List String → String
  | [] => ""
  | [x] => x
  | x :: y :: t => x ++ sep ++ joinSep sep (y :: t)

/-- The chunk sizes come from `DEFAULT_CHUNK_SIZE = 300`; `range(0, total,
300)` gives the chunk start offsets. -/
def chunkStarts (total : Nat) : List Nat :=
  (List.range ((total + 299) / 300)).map (fun i => i * 300)

/-- Extra instruction attached to the `i`-th of `n` chunk calls. -/
def chunkExtraInstruction (idx n : Nat) : String :=
  "(这是第 " ++ toString idx ++ " 批消息，共 " ++ toString n ++ " 批，请先提取这一批的要点)"

/-- Leading text of the merge prompt built in `_summarize_chunked`. -/
def mergePromptHead : String :=
  "请将以下多个批次的群聊分析结果合并为一份完整的摘要，去除重复内容，保留所有重要信息：\n\n"

/-- Sentinel returned by `_call_llm` after all retries are exhausted. -/
def failSentinel : String := "❌ LLM 调用失败，请检查网络或配置"

/-- The chunk requests issued by `_summarize_chunked`: one per
`range(0, total, 300)` offset, formatting `messages[i:i+300]`. -/
def chunkReqs (sysPrompt : String) (msgs : List MsgRec) (groupMap : List (Int × String)) :
    List LLMReq :=
  (chunkStarts msgs.length).map (fun i =>
    mkLLMReq sysPrompt (format_messages ((msgs.drop i).take 300) groupMap)
      (chunkExtraInstruction (i / 300 + 1) ((msgs.length + 299) / 300)) false)

/-- The chunk results, with the LLM modelled as a function `llm` from
request to returned string (the retry machinery behind one call is modelled
separately by `call_llm_go`; its result is always a string — either the
reply or a `"❌"`-prefixed error). -/
def chunk_results (llm : LLMReq → String) (sysPrompt : String) (msgs : List MsgRec)
    (groupMap : List (Int × String)) : List String :=
  (chunkReqs sysPrompt msgs groupMap).map llm

/-- `Summarizer._summarize_chunked`: issue the chunk calls, keep the
Python-truthy (non-empty) results, and when more than one survives issue a
merge call over their `"\n\n---\n\n"`-joined concatenation; `final or
joined` keeps the merge reply unless it is empty.  Returns the report and
the list of LLM requests issued.  (Progress callbacks and logging are
omitted; they do not affect the returned values.) -/
def summarize_chunked (llm : LLMReq → String) (sysPrompt : String) (msgs : List MsgRec)
    (groupMap : List (Int × String)) : String × List LLMReq :=
  let reqs := chunkReqs sysPrompt msgs groupMap
  let summaries := (reqs.map llm).filter (fun r => r ≠ "")
  if 1 < summaries.length then
    let mreq := mkLLMReq sysPrompt (mergePromptHead ++ joinSep "\n\n---\n\n" summaries) "" true
    let final := llm mreq
    ((if final ≠ "" then final else joinSep "\n\n---\n\n" summaries), reqs ++ [mreq])
  else if summaries.length = 1 then (summaries.headD "", reqs)
  else ("⚠️ 摘要生成失败", reqs)

/-- `Summarizer.summarize` for a non-degenerate window (the time-range
resolution and DB read are outside the model: `msgs` is the message window
it obtained).  Returns `(report, requests issued, whether a summaries row
was inserted)`; the row is inserted exactly when the scrubbed report is
truthy and `save` is set (`if summary and save:`). -/
def summarize (llm : LLMReq → String) (sysPrompt : String) (msgs : List MsgRec)
    (groupMap : List (Int × String)) (save : Bool) : String × List LLMReq × Bool :=
  if msgs.isEmpty then ("📭 该时间段内没有消息记录。", [], false)
  else
    let step :=
      if 300 < msgs.length then summarize_chunked llm sysPrompt msgs groupMap
      else
        let req := mkLLMReq sysPrompt (format_messages msgs groupMap) "" false
        (llm req, [req])
    let cleaned := clean_markdown step.1
    (cleaned, step.2, (cleaned != "") && save)

/-! ### Summarizer: the `_call_llm` retry loop and credential slot pool
(`Summarizer.__init__`, `Summarizer._call_llm`). -/

/-- Outcome of one HTTP attempt inside `_call_llm`: a parsed reply, an
`HTTPStatusError` from `raise_for_status`, a transport-level
`httpx.RequestError`, or any other exception. -/
inductive LLMOutcome where
  | success (reply : String)
  | httpStatus (status : Nat) (body : String)
  | transportErr (msg : String)
  | otherErr (msg : String)
deriving Repr, DecidableEq

/-- Result of one `_call_llm` invocation: the returned string, the final
state of the key queue, the number of attempts performed, the backoff
sleeps (in seconds, in order), and the keys acquired (one per attempt). -/
structure LLMRun where
  result : String
  queue : List String
  attempts : Nat
  sleeps : List Nat
  acquired : List String
deriving Repr, DecidableEq

/-- Immediate error string for a 4xx status other than 429. -/
def err4xx (s : Nat) : String := "❌ AI 代理返回错误: " ++ toString s

/-- Error string for a repeated 5xx status (`attempt >= 1`). -/
def err5xx (s : Nat) : String := "❌ AI代理服务端错误: " ++ toString s

/-- The retry loop of `_call_llm` over the remaining attempt indices
(`range(max_retries + 1)` with `max_retries = 2`).  Each iteration takes the
key at the head of the queue (`await self._key_queue.get()`; `none` models
blocking forever on an empty pool) and — success or failure — appends it
back (`finally: put_nowait`) before any backoff sleep.  The `except`
branches follow the source: a non-429 4xx returns immediately with the
status; 429 `continue`s (which skips the backoff sleep); a 5xx returns
immediately from the second attempt on; every other fall-through path
sleeps `2 ** attempt` seconds when attempts remain.  An exhausted loop
returns `failSentinel`. -/
def call_llm_go (o : Nat → LLMOutcome) : List Nat → List String → Option LLMRun
  | [], q => some ⟨failSentinel, q, 0, [], []⟩
  | a :: rest, q =>
    match q with
    | [] => none
    | k :: qrest =>
      let q' := qrest ++ [k]
      match o a with
      | .success r => some ⟨r, q', 1, [], [k]⟩
      | .httpStatus s _ =>
        if 400 ≤ s ∧ s < 500 ∧ s ≠ 429 then some ⟨err4xx s, q', 1, [], [k]⟩
        else if s = 429 then
          (call_llm_go o rest q').map
            (fun r => ⟨r.result, r.queue, r.attempts + 1, r.sleeps, k :: r.acquired⟩)
        else if 500 ≤ s ∧ 1 ≤ a then some ⟨err5xx s, q', 1, [], [k]⟩
        else
          match rest with
          | [] => some ⟨failSentinel, q', 1, [], [k]⟩
          | _ :: _ =>
            (call_llm_go o rest q').map
              (fun r => ⟨r.result, r.queue, r.attempts + 1, 2 ^ a :: r.sleeps, k :: r.acquired⟩)
      | .transportErr _ =>
        match rest with
        | [] => some ⟨failSentinel, q', 1, [], [k]⟩
        | _ :: _ =>
          (call_llm_go o rest q').map
            (fun r => ⟨r.result, r.queue, r.attempts + 1, 2 ^ a :: r.sleeps, k :: r.acquired⟩)
      | .otherErr _ =>
        match rest with
        | [] => some ⟨failSentinel, q', 1, [], [k]⟩
        | _ :: _ =>
          (call_llm_go o rest q').map
            (fun r => ⟨r.result, r.queue, r.attempts + 1, 2 ^ a :: r.sleeps, k :: r.acquired⟩)

/-- `_call_llm` with `max_retries = 2`: attempts 0, 1, 2. -/
def call_llm (o : Nat → LLMOutcome) (q : List String) : Option LLMRun :=
  call_llm_go o [0, 1, 2] q

/-- Effective key list of `Summarizer.__init__`: a non-empty `api_keys`
list is filtered of empty entries; otherwise a single `api_key`; otherwise
the single empty key (local proxy). -/
def effective_keys (api_key : String) (api_keys : List String) : List String :=
  if api_keys ≠ [] then api_keys.filter (fun k => k ≠ "")
  else if api_key ≠ "" then [api_key]
  else [""]

/-- The pre-filled slot queue of `Summarizer.__init__`: each key is put
into the queue `c` times (`max_concurrent_per_key`). -/
def init_pool (keys : List String) (c : Nat) : List String :=
  (keys.map (fun k => List.replicate c k)).flatten

/-! ### Alert deduplication (`AlertManager.__init__`, `AlertManager.check_message`
in `src/alerts.py`). -/

/-- Generic first-occurrence deduplication (auxiliary): keep each value the
first time it is seen. -/
def dedupKeepFirstGo {α : Type _} [DecidableEq α] (seen : List α) : List α → List α
  | [] => []
  | a :: t =>
    if a ∈ seen then dedupKeepFirstGo seen t
    else a :: dedupKeepFirstGo (a :: seen) t

/-- First-occurrence deduplication of a list. -/
def dedupKeepFirst {α : Type _} [DecidableEq α] (l : List α) : List α :=
  dedupKeepFirstGo [] l

/-- In-memory deduplication state of `AlertManager`: the FIFO deque
(`collections.deque(maxlen=2000)`, head first) and its mirror set. -/
structure DedupState where
  deque : List String
  ids : Finset String
deriving DecidableEq

/-- The `maxlen` of the alert deque. -/
def alertDequeCap : Nat := 2000

/-- The dedup-recording step of `check_message` for one matched key (lines
96–115 of `src/alerts.py`): a key already in the set is skipped (the check
returns early); otherwise, when the deque is at capacity its head is
discarded from the set (the deque pops it automatically on append), then
the key is appended to the deque and added to the set. -/
def dedup_record (cap : Nat) (s : DedupState) (k : String) : DedupState :=
  if k ∈ s.ids then s
  else
    let s' :=
      if s.deque.length = cap then
        { deque := s.deque.tail, ids := s.ids.erase (s.deque.headD "") }
      else s
    { deque := s'.deque ++ [k], ids := insert k s'.ids }

/-- Processing a whole sequence of matched alert keys from the fresh
(empty) state of `AlertManager.__init__`. -/
def dedup_run (cap : Nat) (ks : List String) : DedupState :=
  ks.foldl (dedup_record cap) ⟨[], ∅⟩

/-- The `n` most recent distinct values of a key sequence, most recent
first (recency of a value = position of its last occurrence). -/
def most_recent_distinct (ks : List String) (n : Nat) : List String :=
  (dedupKeepFirst ks.reverse).take n

/-! ### Alert enabled flag (`AlertManager.check_message` lines 78–89 and the
`on_new_message` gate in `Collector.run_realtime`, `src/collector.py`
lines 260–267). -/

/-- Python `str.lower()` (ASCII case mapping, which is exact for the
`"true"`/`"false"` values this setting takes). -/
def pyToLower (s : String) : String := String.mk (s.data.map Char.toLower)

/-- The effective enabled flag computed at the top of `check_message`:
start from the config value cached in `__init__`, then override it with the
`alerts_enabled` Settings value when one is present
(`db_val.lower() == "true"`). -/
def check_message_enabled (cfg_enabled : Bool) (db_setting : Option String) : Bool :=
  match db_setting with
  | some v => pyToLower v == "true"
  | none => cfg_enabled

/-- Whether `on_new_message` invokes `check_message` at all: the collector
gates on the cached `self.alert_manager.enabled` config value
(`if self.alert_manager.enabled:`), not on the Settings store. -/
def collector_invokes_check (cfg_enabled : Bool) : Bool := cfg_enabled

/-- Whether an ingested message is actually checked with alerting enabled
on the realtime path: the collector gate and then `check_message`'s own
effective flag. -/
def collector_alert_active (cfg_enabled : Bool) (db_setting : Option String) : Bool :=
  collector_invokes_check cfg_enabled && check_message_enabled cfg_enabled db_setting

/-! ### Store rows, message insert with inline URL extraction, delete and
text update (`src/db/messages.py`, schema in `src/db/core.py`). -/

/-- A `messages` table row (the bookkeeping columns `raw_json` and
`created_at` are omitted; no modelled operation reads or writes them). -/
structure MsgRow where
  id : Int
  group_id : Int
  sender_id : Option Int
  sender_name : Option String
  text : Option String
  date : String
  media_type : Option String
  forward_from : Option String
  reply_to_id : Option Int
deriving Repr, DecidableEq

/-- A `links` table row as written by `insert_message` (the metadata
columns `title`/`description`/`image_url` are filled later by the
background link worker and stay null at insert; they are omitted). -/
structure LinkRow where
  url : String
  message_id : Int
  group_id : Int
  sender_name : Option String
  context : String
  discovered_at : String
deriving Repr, DecidableEq

/-- The store fragment the modelled operations touch. -/
structure Store where
  messages : List MsgRow
  links : List LinkRow
deriving Repr, DecidableEq

/-- The character class excluded by `URL_PATTERN` =
`https?://[^\s<>\"')\]，。！？、；：）》」』】​]+`: whitespace, the
listed ASCII punctuation, the listed CJK closing punctuation, and the
zero-width space. -/
def urlStopChar (c : Char) : Bool :=
  pyIsSpace c || c == '<' || c == '>' || c == '"' || c == Char.ofNat 39 ||
  c == ')' || c == ']' || c == '，' || c == '。' || c == '！' || c == '？' ||
  c == '、' || c == '；' || c == '：' || c == '）' || c == '》' || c == '」' ||
  c == '』' || c == '】' || c == Char.ofNat 8203

/-- Match of `URL_PATTERN` at the current position: the literal scheme
(`https?://`, trying the `s` variant first) followed by a non-empty greedy
run of allowed characters. -/
def urlMatchAt (l : List Char) : Option (List Char × List Char) :=
  let p : Option Nat :=
    if ("https://".data).isPrefixOf l then some 8
    else if ("http://".data).isPrefixOf l then some 7
    else none
  match p with
  | none => none
  | some n =>
    let body := (l.drop n).takeWhile (fun c => !urlStopChar c)
    if body.length = 0 then none
    else some (l.take n ++ body, l.drop (n + body.length))

/-- `URL_PATTERN.findall(text)`: non-overlapping matches, left to right. -/
def url_findall_go (fuel : Nat) (l : List Char) : List String :=
  match fuel with
  | 0 => []
  | fuel + 1 =>
    match l with
    | [] => []
    | c :: cs =>
      match urlMatchAt (c :: cs) with
      | some (m, rest) => String.mk m :: url_findall_go fuel rest
      | none => url_findall_go fuel cs

/-- `URL_PATTERN.findall` on a string. -/
def url_findall (t : String) : List String :=
  url_findall_go t.data.length t.data

/-- The per-URL `INSERT OR IGNORE INTO links` loop of `insert_message`:
each `URL_PATTERN.findall` hit is inserted unless a row with the same
`(url, group_id, message_id)` already exists. -/
def insert_links (m : MsgRow) (t : String) (links : List LinkRow) (us : List String) :
    List LinkRow :=
  us.foldl
    (fun acc u =>
      if acc.any (fun r => r.url == u && r.group_id == m.group_id && r.message_id == m.id) then
        acc
      else acc ++ [⟨u, m.id, m.group_id, m.sender_name, t.take 200, m.date⟩])
    links

/-- `MessagesDAO.insert_message`: `INSERT OR IGNORE` of the message row
(unique on `(id, group_id)`), then — when the text is Python-truthy — one
`INSERT OR IGNORE` per `URL_PATTERN.findall` hit into `links` (unique on
`(url, group_id, message_id)`), with the first 200 characters of the text
as context.  (The background link-metadata queue is out of scope.) -/
def insert_message (st : Store) (m : MsgRow) : Store :=
  let messages' :=
    if st.messages.any (fun r => r.id == m.id && r.group_id == m.group_id) then st.messages
    else st.messages ++ [m]
  let t := m.text.getD ""
  let links' :=
    if t ≠ "" then insert_links m t st.links (url_findall t)
    else st.links
  ⟨messages', links'⟩

/-- `MessagesDAO.delete_messages`: look up the matching rows (for the FTS
`'delete'` ops, which concern only the full-text index), then `DELETE FROM
messages WHERE id IN (...) AND group_id = ?`.  No statement touches the
`links` table (the schema has no foreign key or cascade).  Returns the new
store and the deleted row count. -/
def delete_messages (st : Store) (msg_ids : List Int) (gid : Int) : Store × Nat :=
  if msg_ids.isEmpty then (st, 0)
  else
    let existing := st.messages.filter (fun r => msg_ids.contains r.id && r.group_id == gid)
    if existing.isEmpty then (st, 0)
    else
      (⟨st.messages.filter (fun r => !(msg_ids.contains r.id && r.group_id == gid)), st.links⟩,
        existing.length)

/-- Row transformation of `MessagesDAO.update_message_text`:
`UPDATE messages SET text = ?, media_type = COALESCE(?, media_type)
WHERE id = ? AND group_id = ? AND text IS NOT ?` — the row is rewritten
only when it matches the key and its text differs (null-safe) from the new
text; `media_type` keeps its stored value when the argument is null. -/
def update_message_text_row (r : MsgRow) (msg_id gid : Int)
    (new_text media_type : Option String) : MsgRow :=
  if r.id == msg_id && r.group_id == gid && r.text != new_text then
    { r with
      text := new_text
      media_type := match media_type with
        | some m => some m
        | none => r.media_type }
  else r

/-- `MessagesDAO.update_message_text` over the whole table; the returned
flag is `cursor.rowcount > 0`. -/
def update_message_text (table : List MsgRow) (msg_id gid : Int)
    (new_text media_type : Option String) : List MsgRow × Bool :=
  (table.map (fun r => update_message_text_row r msg_id gid new_text media_type),
   table.any (fun r => r.id == msg_id && r.group_id == gid && r.text != new_text))

/-! ### Analytics reads (`AnalyticsDAO.get_top_senders`,
`AnalyticsDAO.get_stats` in `src/db/analytics.py`). -/

/-- The WHERE clause of `get_top_senders`: optional `group_id = ?` and
`date >= ?` filters. -/
def top_senders_filter (table : List MsgRow) (gid : Option Int) (since : Option String) :
    List MsgRow :=
  table.filter (fun r =>
    (match gid with
      | some g => r.group_id == g
      | none => true) &&
    (match since with
      | some s => decide (s ≤ r.date)
      | none => true))

/-- `GROUP BY sender_id` with `COUNT(*)`: one group per distinct
`sender_id` value — SQLite places every NULL `sender_id` in a single
group.  (The query also selects a representative `sender_name` per group;
which row it comes from is unspecified in SQLite, so the model returns the
`(sender_id, count)` pairs.) -/
def group_counts_by_sender_id (rows : List MsgRow) : List (Option Int × Nat) :=
  (dedupKeepFirst (rows.map (fun r => r.sender_id))).map
    (fun k => (k, (rows.filter (fun r => r.sender_id == k)).length))

/-- Insertion into a list sorted by descending count (stable, models
`ORDER BY msg_count DESC`; SQLite leaves the tie order unspecified). -/
def insertByCountDesc (x : Option Int × Nat) :
    List (Option Int × Nat) → List (Option Int × Nat)
  | [] => [x]
  | y :: ys => if y.2 < x.2 then x :: y :: ys else y :: insertByCountDesc x ys

/-- Sort by descending count. -/
def sortByCountDesc : List (Option Int × Nat) → List (Option Int × Nat)
  | [] => []
  | x :: xs => insertByCountDesc x (sortByCountDesc xs)

/-- `AnalyticsDAO.get_top_senders`: filter, `GROUP BY sender_id`,
`ORDER BY msg_count DESC LIMIT ?`. -/
def get_top_senders (table : List MsgRow) (gid : Option Int) (since : Option String)
    (limit : Nat) : List (Option Int × Nat) :=
  (sortByCountDesc (group_counts_by_sender_id (top_senders_filter table gid since))).take limit

/-- Modelled from the spec's words for comparison (not from the source):
a top-senders aggregation grouped by `COALESCE(sender_id, sender_name)`, so
that anonymous posts sharing a `sender_name` form one synthetic sender. -/
def spec_top_sender_key (r : MsgRow) : Option (Int ⊕ String) :=
  match r.sender_id with
  | some i => some (Sum.inl i)
  | none => r.sender_name.map Sum.inr

/-- Modelled from the spec's words for comparison (not from the source):
group counts by the `COALESCE(sender_id, sender_name)` key. -/
def spec_top_senders_groups (rows : List MsgRow) : List (Option (Int ⊕ String) × Nat) :=
  (dedupKeepFirst (rows.map spec_top_sender_key)).map
    (fun k => (k, (rows.filter (fun r => spec_top_sender_key r == k)).length))

/-- The `active_users` aggregate of `get_stats` over one group's rows:
`COUNT(DISTINCT COALESCE(CAST(sender_id AS TEXT), sender_name))` — the
integer id is cast to its decimal text, a null id falls back to
`sender_name`, and `COUNT(DISTINCT ...)` ignores rows where both are
null. -/
def get_stats_active_users (rows : List MsgRow) : Nat :=
  (dedupKeepFirst (rows.filterMap (fun r =>
    match r.sender_id with
    | some i => some (toString i)
    | none => r.sender_name))).length

/-! ### Concrete data used by counterexamples and witnesses. -/

/-- A plain message record. -/
def sampleMsg : MsgRec :=
  ⟨1, -100, "u", "hello", "2024-01-01T00:00:00+00:00", none, none, none⟩

/-- A window of 650 messages (three chunks of size 300, 300, 50). -/
def msgs650 : List MsgRec := List.replicate 650 sampleMsg

/-- A window of 301 messages (two chunks of size 300 and 1). -/
def msgs301 : List MsgRec := List.replicate 301 sampleMsg

/-- An LLM for which every call exhausts its retries. -/
def llmAllFail : LLMReq → String := fun _ => failSentinel

/-- An LLM whose chunk calls reply `"A"` and whose merge call fails with
the retry-exhausted sentinel. -/
def llmMergeFail : LLMReq → String :=
  fun q => if q.isMerge then failSentinel else "A"

/-- An LLM whose chunk calls reply `"A"` and whose merge call returns an
empty (Python-falsy) reply. -/
def llmMergeEmpty : LLMReq → String :=
  fun q => if q.isMerge then "" else "A"

/-- Outcome streams for the retry-loop theorems. -/
def o429 : Nat → LLMOutcome := fun _ => .httpStatus 429 "Too Many Requests"

/-- Outcome stream: every attempt hits a 500. -/
def o500 : Nat → LLMOutcome := fun _ => .httpStatus 500 "upstream error"

/-- Outcome stream: every attempt hits a transport error. -/
def oTransport : Nat → LLMOutcome := fun _ => .transportErr "connection reset"

/-- Outcome stream: a 404 with a server body on the first attempt. -/
def o404 : Nat → LLMOutcome := fun _ => .httpStatus 404 "Not Found"

/-- Outcome stream: immediate success. -/
def oSuccess : Nat → LLMOutcome := fun _ => .success "hi"

/-- A two-key pool. -/
def qPool : List String := ["k1", "k2"]

/-- The `n`-th alert key of the C5 scenarios: `n+1` letters `a` (distinct
keys for distinct `n`, never empty). -/
def aKey (n : Nat) : String := String.mk (List.replicate (n + 1) 'a')

/-- The first `n` alert keys. -/
def alertKeys (n : Nat) : List String := (List.range n).map aKey

/-- The C5 counterexample sequence: 2000 distinct keys, then the first key
again (still cached, so skipped without a FIFO refresh), then one more
fresh key (which evicts the first key). -/
def alertCounterSeq : List String := alertKeys 2000 ++ [aKey 0, aKey 2000]

/-- A message with one URL in its text. -/
def linkMsg : MsgRow :=
  ⟨100, -100500, some 7, some "alice", some "check https://example.com/x promo",
   "2024-01-01T00:00:00+00:00", none, none, none⟩

/-- An anonymous channel post by channel A. -/
def anonA : MsgRow :=
  ⟨1, 10, none, some "Channel A", some "m1", "2024-01-01T00:00:00", none, none, none⟩

/-- A second anonymous channel post by channel A. -/
def anonA2 : MsgRow :=
  ⟨2, 10, none, some "Channel A", some "m2", "2024-01-01T00:00:01", none, none, none⟩

/-- An anonymous channel post by channel B. -/
def anonB : MsgRow :=
  ⟨3, 10, none, some "Channel B", some "m3", "2024-01-01T00:00:02", none, none, none⟩

/-- A stored row for the update-frame witness. -/
def rowC10 : MsgRow :=
  ⟨5, 6, some 42, some "bob", some "old", "2024-01-01T00:00:00", some "photo", none, none⟩

/-! ## Helper lemmas -/

/-- Projection of `mkLLMReq`. -/
@[simp] theorem mkLLMReq_isMerge (s c e : String) (b : Bool) :
    (mkLLMReq s c e b).isMerge = b := rfl

/-- Projection of `mkLLMReq`. -/
@[simp] theorem mkLLMReq_user (s c e : String) (b : Bool) :
    (mkLLMReq s c e b).user = c := rfl

/-- A join of non-empty strings is non-empty. -/
theorem joinSep_ne_empty (sep : String) (l : List String)
    (h : ∀ x ∈ l, x ≠ "") (hne : l ≠ []) : joinSep sep l ≠ "" := by
  match l with
  | [] => exact absurd rfl hne
  | [x] =>
    simpa [joinSep] using h x (by simp)
  | x :: y :: t =>
    have hx : x ≠ "" := h x (by simp)
    have hlen : 0 < x.length := by
      cases hx' : x.data with
      | nil => exact absurd (by cases x; simp_all) hx
      | cons a as => simp [String.length, hx']
    intro hcontra
    have : (x ++ sep ++ joinSep sep (y :: t)).length = 0 := by
      rw [show x ++ sep ++ joinSep sep (y :: t) = joinSep sep (x :: y :: t) from rfl]
      rw [hcontra]
      rfl
    simp [String.length_append] at this
    omega

/-- Keys already seen are dropped entirely. -/
theorem dedupKeepFirstGo_all_seen {α : Type _} [DecidableEq α] (seen : List α)
    (l : List α) (h : ∀ a ∈ l, a ∈ seen) : dedupKeepFirstGo seen l = [] := by
  induction l with
  | nil => rfl
  | cons a t ih =>
    simp only [dedupKeepFirstGo, if_pos (h a (by simp))]
    exact ih (fun x hx => h x (by simp [hx]))

/-- Deduplicating a constant non-empty list gives the singleton. -/
theorem dedupKeepFirst_const {α : Type _} [DecidableEq α] (x : α) (l : List α)
    (h : ∀ a ∈ l, a = x) (hne : l ≠ []) : dedupKeepFirst l = [x] := by
  match l with
  | [] => exact absurd rfl hne
  | a :: t =>
    have ha : a = x := h a (by simp)
    subst ha
    simp only [dedupKeepFirst, dedupKeepFirstGo, List.not_mem_nil, if_neg (fun h => h)]
    rw [dedupKeepFirstGo_all_seen]
    intro b hb
    simp [h b (by simp [hb])]

/-- Membership is preserved by first-occurrence dedup. -/
theorem mem_dedupKeepFirstGo {α : Type _} [DecidableEq α] (seen : List α)
    (l : List α) (a : α) : a ∈ dedupKeepFirstGo seen l ↔ a ∈ l ∧ a ∉ seen := by
  induction l generalizing seen with
  | nil => simp [dedupKeepFirstGo]
  | cons b t ih =>
    simp only [dedupKeepFirstGo]
    by_cases hb : b ∈ seen
    · rw [if_pos hb, ih]
      simp only [List.mem_cons]
      constructor
      · rintro ⟨h1, h2⟩
        exact ⟨Or.inr h1, h2⟩
      · rintro ⟨rfl | h1, h2⟩
        · exact absurd hb h2
        · exact ⟨h1, h2⟩
    · rw [if_neg hb]
      simp only [List.mem_cons, ih, List.mem_cons]
      by_cases hab : a = b
      · subst hab
        simp [hb]
      · simp [hab]

/-- Deduplicating a list without duplicates is the identity. -/
theorem dedupKeepFirstGo_of_nodup {α : Type _} [DecidableEq α] (seen : List α)
    (l : List α) (hn : l.Nodup) (hd : ∀ a ∈ l, a ∉ seen) :
    dedupKeepFirstGo seen l = l := by
  induction l generalizing seen with
  | nil => rfl
  | cons a t ih =>
    simp only [dedupKeepFirstGo, if_neg (hd a (by simp))]
    rw [ih (a :: seen) (List.nodup_cons.mp hn).2]
    intro x hx
    intro hc
    rcases List.mem_cons.mp hc with rfl | h
    · exact (List.nodup_cons.mp hn).1 hx
    · exact hd x (by simp [hx]) h

/-! ## Claim theorems -/

/-- C9 (counterexample): the Markdown scrubber is not idempotent.  On the
input `"#- x"` the stray-`#` removal of step 5 exposes a line-start list
bullet, which only the next application converts: `clean_markdown "#- x" =
"- x"` but `clean_markdown "- x" = "• x"`. -/
theorem clean_markdown_not_idempotent :
    clean_markdown (clean_markdown "#- x") ≠ clean_markdown "#- x" := by
  decide

/-- C9 (amended): the scrubber is not idempotent in general — removing a
stray `#`/`*` (step 5) can expose a line-start list bullet that only the
next application rewrites.  On the failing input a second application
reaches a fixed point: `scrub "#- x" = "- x"`, `scrub "- x" = "• x"`, and
`"• x"` is a fixed point of `scrub`. -/
theorem clean_markdown_second_pass_fixed :
    clean_markdown "#- x" = "- x" ∧ clean_markdown "- x" = "• x" ∧
    clean_markdown "• x" = "• x" := by
  decide

/-- C6 (counterexample): with `alerts.enabled = false` in the startup
config, setting `alerts_enabled = "true"` in the Settings store does not
enable alerting on the realtime path: `on_new_message` gates on the cached
config flag and never calls `check_message`, even though `check_message`
itself would read the setting as enabled. -/
theorem alerts_runtime_enable_gated_by_config :
    collector_alert_active false (some "true") = false ∧
    check_message_enabled false (some "true") = true := by
  decide

/-- C6 (amended): `check_message` reads the `alerts_enabled` setting from
the Settings store on every check, and a present setting overrides the
startup config value (flipping it to `"false"` takes effect immediately
when the config started enabled); but the realtime collector invokes
`check_message` only when the cached startup config flag is true, so
alerting cannot be enabled at runtime when the config started disabled. -/
theorem alerts_enabled_flag_behavior :
    (∀ (c1 c2 : Bool) (v : String),
      check_message_enabled c1 (some v) = check_message_enabled c2 (some v)) ∧
    (∀ c : Bool, check_message_enabled c none = c) ∧
    (∀ v : String, collector_alert_active true (some v) = (pyToLower v == "true")) ∧
    (∀ s : Option String, collector_alert_active false s = false) := by
  refine ⟨fun c1 c2 v => rfl, fun c => rfl, fun v => ?_, fun s => rfl⟩
  simp [collector_alert_active, collector_invokes_check, check_message_enabled]

/-- C10: `update_message_text` rewrites a row only when it matches the key
and its stored text differs (null-safe) from the new text; in that case it
sets `text`, leaves `media_type` unchanged when the argument is null and
replaces it when non-null, and leaves every other column unchanged; the
returned flag reports whether any row changed. -/
theorem update_message_text_frame :
    ∀ (r : MsgRow) (i g : Int) (nt mt : Option String),
      (¬(r.id = i ∧ r.group_id = g ∧ r.text ≠ nt) →
        update_message_text_row r i g nt mt = r) ∧
      (r.id = i → r.group_id = g → r.text ≠ nt →
        (update_message_text_row r i g nt mt).text = nt ∧
        (mt = none → (update_message_text_row r i g nt mt).media_type = r.media_type) ∧
        (∀ m, mt = some m → (update_message_text_row r i g nt mt).media_type = some m) ∧
        (update_message_text_row r i g nt mt).id = r.id ∧
        (update_message_text_row r i g nt mt).group_id = r.group_id ∧
        (update_message_text_row r i g nt mt).sender_id = r.sender_id ∧
        (update_message_text_row r i g nt mt).sender_name = r.sender_name ∧
        (update_message_text_row r i g nt mt).date = r.date ∧
        (update_message_text_row r i g nt mt).forward_from = r.forward_from ∧
        (update_message_text_row r i g nt mt).reply_to_id = r.reply_to_id) ∧
      ((update_message_text [r] i g nt mt).2 = true ↔
        (r.id = i ∧ r.group_id = g ∧ r.text ≠ nt)) := by
  intro r i g nt mt
  refine ⟨?_, ?_, ?_⟩
  · intro h
    unfold update_message_text_row
    rw [if_neg]
    simp only [Bool.and_eq_true, beq_iff_eq, bne_iff_ne]
    exact fun hc => h ⟨hc.1.1, hc.1.2, hc.2⟩
  · intro h1 h2 h3
    unfold update_message_text_row
    rw [if_pos (by simp [h1, h2, h3])]
    cases mt with
    | none => simp
    | some m => simp
  · simp [update_message_text, and_assoc]

/-- C10 (witness): evaluating the update at a concrete stored row. -/
theorem update_message_text_frame_witness :
    (update_message_text_row rowC10 5 6 (some "new") none).text = some "new" ∧
    (update_message_text_row rowC10 5 6 (some "new") none).media_type = rowC10.media_type ∧
    update_message_text_row rowC10 7 6 (some "new") none = rowC10 := by
  have T := update_message_text_frame rowC10 5 6 (some "new") none
  have T2 := update_message_text_frame rowC10 7 6 (some "new") none
  have h := T.2.1 rfl rfl (by decide)
  exact ⟨h.1, h.2.1 rfl, T2.1 (by decide)⟩

/-- C8 (counterexample): `get_top_senders` groups by `sender_id` alone, so
two anonymous posts with different `sender_name`s merge into a single NULL
group — unlike the spec-side `COALESCE(sender_id, sender_name)` grouping,
which yields two synthetic senders. -/
theorem get_top_senders_single_null_group :
    get_top_senders [anonA, anonB] none none 10 = [(none, 2)] ∧
    spec_top_senders_groups [anonA, anonB] =
      [(some (Sum.inr "Channel A"), 1), (some (Sum.inr "Channel B"), 1)] := by
  decide

/-- C8 (amended): `get_top_senders` aggregates by `sender_id` only, so all
anonymous posts (NULL `sender_id`) fall into one shared group whose count
is the number of anonymous rows; the `COALESCE(sender_id, sender_name)`
anonymous-sender fallback lives in `get_stats`, whose `active_users` counts
anonymous posts sharing one `sender_name` as a single synthetic sender
(1, not 0). -/
theorem top_senders_aggregation_behavior :
    (∀ rows : List MsgRow, (∀ r ∈ rows, r.sender_id = none) → rows ≠ [] →
      group_counts_by_sender_id rows = [(none, rows.length)]) ∧
    (∀ (rows : List MsgRow) (lim : Nat), (∀ r ∈ rows, r.sender_id = none) → rows ≠ [] →
      1 ≤ lim → get_top_senders rows none none lim = [(none, rows.length)]) ∧
    (∀ (rows : List MsgRow) (nm : String), rows ≠ [] →
      (∀ r ∈ rows, r.sender_id = none ∧ r.sender_name = some nm) →
      get_stats_active_users rows = 1) := by
  have hgroup : ∀ rows : List MsgRow, (∀ r ∈ rows, r.sender_id = none) → rows ≠ [] →
      group_counts_by_sender_id rows = [(none, rows.length)] := by
    intro rows hall hne
    unfold group_counts_by_sender_id
    rw [dedupKeepFirst_const none]
    · have : rows.filter (fun r => r.sender_id == none) = rows := by
        rw [List.filter_eq_self]
        intro r hr
        simp [hall r hr]
      simp [this]
    · intro a ha
      rcases List.mem_map.mp ha with ⟨r, hr, rfl⟩
      exact hall r hr
    · intro hc
      rcases rows with _ | ⟨r, t⟩
      · exact hne rfl
      · simp at hc
  refine ⟨hgroup, ?_, ?_⟩
  · intro rows lim hall hne hlim
    unfold get_top_senders
    have hfilt : top_senders_filter rows none none = rows := by
      unfold top_senders_filter
      rw [List.filter_eq_self]
      intro r hr
      rfl
    rw [hfilt, hgroup rows hall hne]
    cases lim with
    | zero => omega
    | succ n => simp [sortByCountDesc, insertByCountDesc]
  · intro rows nm hne hall
    unfold get_stats_active_users
    have hmap : ∀ rows' : List MsgRow,
        (∀ r ∈ rows', r.sender_id = none ∧ r.sender_name = some nm) →
        rows'.filterMap (fun r =>
          match r.sender_id with
          | some i => some (toString i)
          | none => r.sender_name) = rows'.map (fun _ => nm) := by
      intro rows'
      induction rows' with
      | nil => intro _; rfl
      | cons r t ih =>
        intro hall'
        have hr := hall' r (by simp)
        simp only [List.filterMap_cons, List.map_cons, hr.1, hr.2]
        rw [ih (fun x hx => hall' x (by simp [hx]))]
    rw [hmap rows hall, dedupKeepFirst_const nm]
    · rfl
    · intro a ha
      rcases List.mem_map.mp ha with ⟨r, _, rfl⟩
      rfl
    · intro hc
      rcases rows with _ | ⟨r, t⟩
      · exact hne rfl
      · simp at hc

/-- C8 (witness): the aggregation facts evaluated at concrete anonymous
rows. -/
theorem top_senders_aggregation_witness :
    group_counts_by_sender_id [anonA, anonB] = [(none, 2)] ∧
    get_top_senders [anonA, anonA2] none none 10 = [(none, 2)] ∧
    get_stats_active_users [anonA, anonA2] = 1 := by
  have h1 := top_senders_aggregation_behavior.1 [anonA, anonB] (by decide) (by decide)
  have h2 := top_senders_aggregation_behavior.2.1 [anonA, anonA2] 10 (by decide) (by decide)
    (by decide)
  have h3 := top_senders_aggregation_behavior.2.2 [anonA, anonA2] "Channel A" (by decide)
    (by decide)
  exact ⟨h1, h2, h3⟩

set_option maxRecDepth 8000 in
/-- C7 (counterexample): after inserting a message whose text carries one
URL and then deleting that message via `delete_messages`, the message row
is gone (count 1 reported) but the `links` row referencing
`(message_id, group_id)` is still in the store — `delete_messages` never
touches the `links` table. -/
theorem delete_messages_leaves_links :
    (delete_messages (insert_message ⟨[], []⟩ linkMsg) [100] (-100500)).1.messages = [] ∧
    (delete_messages (insert_message ⟨[], []⟩ linkMsg) [100] (-100500)).2 = 1 ∧
    (delete_messages (insert_message ⟨[], []⟩ linkMsg) [100] (-100500)).1.links =
      [⟨"https://example.com/x", 100, -100500, some "alice",
        "check https://example.com/x promo", "2024-01-01T00:00:00+00:00"⟩] := by
  decide

/-- C7 (amended): the URL set stored in `links` for an inserted message
equals the `URL_PATTERN.findall` match set over its text (first part of
the claim, confirmed); but `delete_messages` removes only the matching
`messages` rows and leaves the `links` table untouched — link rows
referencing a deleted message persist until the retention cleanup. -/
theorem insert_links_regex_and_delete_frame :
    (∀ (m : MsgRow) (t : String), m.text = some t →
      ∀ u : String,
        (∃ lr ∈ (insert_message ⟨[], []⟩ m).links,
          lr.url = u ∧ lr.message_id = m.id ∧ lr.group_id = m.group_id) ↔
        u ∈ url_findall t) ∧
    (∀ (st : Store) (ids : List Int) (g : Int),
      (delete_messages st ids g).1.links = st.links) ∧
    (∀ (st : Store) (ids : List Int) (g : Int) (r : MsgRow),
      r ∈ (delete_messages st ids g).1.messages → ¬(r.id ∈ ids ∧ r.group_id = g)) := by
  have hfold : ∀ (m : MsgRow) (t : String) (us : List String) (acc : List LinkRow) (u : String),
      (∃ lr ∈ insert_links m t acc us,
        lr.url = u ∧ lr.message_id = m.id ∧ lr.group_id = m.group_id) ↔
      ((∃ lr ∈ acc, lr.url = u ∧ lr.message_id = m.id ∧ lr.group_id = m.group_id) ∨
        u ∈ us) := by
    intro m t us
    induction us with
    | nil =>
      intro acc u
      simp [insert_links]
    | cons u0 rest ih =>
      intro acc u
      rw [show insert_links m t acc (u0 :: rest) =
        insert_links m t
          (if acc.any (fun r =>
              r.url == u0 && r.group_id == m.group_id && r.message_id == m.id) then acc
           else acc ++ [⟨u0, m.id, m.group_id, m.sender_name, t.take 200, m.date⟩]) rest
        from rfl]
      rw [ih]
      by_cases hdup : acc.any (fun r =>
          r.url == u0 && r.group_id == m.group_id && r.message_id == m.id) = true
      · rw [if_pos hdup]
        rcases List.any_eq_true.mp hdup with ⟨lr0, hlr0, hp⟩
        simp only [Bool.and_eq_true, beq_iff_eq] at hp
        constructor
        · rintro (h | h)
          · exact Or.inl h
          · exact Or.inr (List.mem_cons_of_mem u0 h)
        · rintro (h | h)
          · exact Or.inl h
          · rcases List.mem_cons.mp h with rfl | h
            · exact Or.inl ⟨lr0, hlr0, hp.1.1, hp.2, hp.1.2⟩
            · exact Or.inr h
      · rw [if_neg hdup]
        constructor
        · rintro (⟨lr, hlr, hu⟩ | h)
          · rcases List.mem_append.mp hlr with h1 | h1
            · exact Or.inl ⟨lr, h1, hu⟩
            · have heq := List.mem_singleton.mp h1
              subst heq
              exact Or.inr (by simp [← hu.1])
          · exact Or.inr (List.mem_cons_of_mem u0 h)
        · rintro (⟨lr, hlr, hu⟩ | h)
          · exact Or.inl ⟨lr, List.mem_append_left _ hlr, hu⟩
          · rcases List.mem_cons.mp h with rfl | h
            · exact Or.inl ⟨⟨u, m.id, m.group_id, m.sender_name, t.take 200, m.date⟩,
                List.mem_append_right _ (List.mem_singleton_self _), rfl, rfl, rfl⟩
            · exact Or.inr h
  refine ⟨?_, ?_, ?_⟩
  · intro m t hmt u
    unfold insert_message
    simp only [hmt, Option.getD_some]
    by_cases ht : t = ""
    · subst ht
      simp [url_findall, url_findall_go]
    · rw [if_pos ht]
      rw [hfold m t (url_findall t) [] u]
      simp
  · intro st ids g
    unfold delete_messages
    by_cases h1 : ids.isEmpty
    · rw [if_pos h1]
    · rw [if_neg h1]
      by_cases h2 : (st.messages.filter (fun r => ids.contains r.id && r.group_id == g)).isEmpty
      · rw [if_pos h2]
      · rw [if_neg h2]
  · intro st ids g r hr
    unfold delete_messages at hr
    by_cases h1 : ids.isEmpty
    · rw [if_pos h1] at hr
      intro hc
      rw [List.isEmpty_iff] at h1
      rw [h1] at hc
      simp at hc
    · rw [if_neg h1] at hr
      by_cases h2 : (st.messages.filter (fun r => ids.contains r.id && r.group_id == g)).isEmpty
      · rw [if_pos h2] at hr
        intro hc
        rw [List.isEmpty_iff, List.filter_eq_nil_iff] at h2
        exact h2 r hr (by simp [hc.1, hc.2])
      · rw [if_neg h2] at hr
        have := List.of_mem_filter hr
        intro hc
        simp [hc.1, hc.2] at this

/-- C7 (witness): the regex–links equality and the delete frame evaluated
at the concrete store. -/
theorem insert_links_regex_witness :
    ((∃ lr ∈ (insert_message ⟨[], []⟩ linkMsg).links,
        lr.url = "https://example.com/x" ∧ lr.message_id = linkMsg.id ∧
        lr.group_id = linkMsg.group_id) ↔
      "https://example.com/x" ∈ url_findall "check https://example.com/x promo") ∧
    (delete_messages (insert_message ⟨[], []⟩ linkMsg) [100] (-100500)).1.links =
      (insert_message ⟨[], []⟩ linkMsg).links := by
  exact ⟨insert_links_regex_and_delete_frame.1 linkMsg
      "check https://example.com/x promo" rfl "https://example.com/x",
    insert_links_regex_and_delete_frame.2.1 (insert_message ⟨[], []⟩ linkMsg) [100] (-100500)⟩

/-- Structural specification of the retry loop: on a non-empty pool it
terminates with a result, the final queue is a permutation of the initial
one, the number of attempts is bounded by the attempt list, and exactly one
key — always one of the pool — is acquired per attempt. -/
theorem call_llm_go_spec (o : Nat → LLMOutcome) :
    ∀ (atts : List Nat) (q : List String), q ≠ [] →
      ∃ r, call_llm_go o atts q = some r ∧ r.queue.Perm q ∧
        r.attempts ≤ atts.length ∧ r.acquired.length = r.attempts ∧
        (∀ x ∈ r.acquired, x ∈ q) := by
  intro atts
  induction atts with
  | nil =>
    intro q hq
    exact ⟨⟨failSentinel, q, 0, [], []⟩, rfl, List.Perm.refl q, by simp, rfl, by simp⟩
  | cons a rest ih =>
    intro q hq
    rcases q with _ | ⟨k, qrest⟩
    · exact absurd rfl hq
    obtain ⟨r', hr', hp', ha', hl', hm'⟩ := ih (qrest ++ [k]) (by simp)
    have hperm : (qrest ++ [k]).Perm (k :: qrest) := List.perm_append_singleton k qrest
    have hmem' : ∀ x ∈ r'.acquired, x ∈ k :: qrest :=
      fun x hx => hperm.mem_iff.mp (hm' x hx)
    have hsing : ∀ x ∈ ([k] : List String), x ∈ k :: qrest := by
      intro x hx
      rcases List.mem_singleton.mp hx with rfl
      exact List.mem_cons_self _ _
    have hone : 1 ≤ (a :: rest).length := by simp
    have hrec : ∀ sl : List Nat,
        (∃ r, ((call_llm_go o rest (qrest ++ [k])).map
            (fun r => LLMRun.mk r.result r.queue (r.attempts + 1) (sl ++ r.sleeps)
              (k :: r.acquired)) = some r ∧
          r.queue.Perm (k :: qrest) ∧ r.attempts ≤ (a :: rest).length ∧
          r.acquired.length = r.attempts ∧ ∀ x ∈ r.acquired, x ∈ k :: qrest)) := by
      intro sl
      rw [hr', Option.map_some']
      refine ⟨_, rfl, hp'.trans hperm, ?_, ?_, ?_⟩
      · simpa using Nat.succ_le_succ ha'
      · simp [hl']
      · intro x hx
        rcases List.mem_cons.mp hx with rfl | hx
        · exact List.mem_cons_self _ _
        · exact hmem' x hx
    simp only [call_llm_go]
    cases ho : o a with
    | success rep =>
      exact ⟨⟨rep, qrest ++ [k], 1, [], [k]⟩, rfl, hperm, hone, rfl, hsing⟩
    | httpStatus s b =>
      dsimp only
      by_cases h1 : 400 ≤ s ∧ s < 500 ∧ s ≠ 429
      · rw [if_pos h1]
        exact ⟨⟨err4xx s, qrest ++ [k], 1, [], [k]⟩, rfl, hperm, hone, rfl, hsing⟩
      · rw [if_neg h1]
        by_cases h2 : s = 429
        · rw [if_pos h2]
          simpa using hrec []
        · rw [if_neg h2]
          by_cases h3 : 500 ≤ s ∧ 1 ≤ a
          · rw [if_pos h3]
            exact ⟨⟨err5xx s, qrest ++ [k], 1, [], [k]⟩, rfl, hperm, hone, rfl, hsing⟩
          · rw [if_neg h3]
            cases rest with
            | nil =>
              exact ⟨⟨failSentinel, qrest ++ [k], 1, [], [k]⟩, rfl, hperm, hone, rfl, hsing⟩
            | cons a2 rest2 =>
              simpa using hrec [2 ^ a]
    | transportErr msg =>
      cases rest with
      | nil =>
        exact ⟨⟨failSentinel, qrest ++ [k], 1, [], [k]⟩, rfl, hperm, hone, rfl, hsing⟩
      | cons a2 rest2 =>
        simpa using hrec [2 ^ a]
    | otherErr msg =>
      cases rest with
      | nil =>
        exact ⟨⟨failSentinel, qrest ++ [k], 1, [], [k]⟩, rfl, hperm, hone, rfl, hsing⟩
      | cons a2 rest2 =>
        simpa using hrec [2 ^ a]

/-- Every attempt hitting a 429 retries immediately: the retry spends all
attempts of the list and performs no backoff sleep at all. -/
theorem call_llm_go_429 (o : Nat → LLMOutcome) :
    ∀ (atts : List Nat) (q : List String), q ≠ [] →
      (∀ a ∈ atts, ∃ b, o a = .httpStatus 429 b) →
      ∃ r, call_llm_go o atts q = some r ∧ r.result = failSentinel ∧
        r.attempts = atts.length ∧ r.sleeps = [] := by
  intro atts
  induction atts with
  | nil =>
    intro q hq _
    exact ⟨⟨failSentinel, q, 0, [], []⟩, rfl, rfl, rfl, rfl⟩
  | cons a rest ih =>
    intro q hq hall
    rcases q with _ | ⟨k, qrest⟩
    · exact absurd rfl hq
    obtain ⟨b, hb⟩ := hall a (by simp)
    obtain ⟨r', hr', hres', hatt', hsl'⟩ :=
      ih (qrest ++ [k]) (by simp) (fun x hx => hall x (by simp [hx]))
    simp only [call_llm_go]
    rw [hb]
    dsimp only
    rw [if_neg (by omega), if_pos rfl, hr', Option.map_some']
    exact ⟨_, rfl, hres', by simp [hatt'], hsl'⟩

/-- Every attempt hitting a transport error backs off `2 ^ attempt`
seconds between attempts and exhausts the whole attempt list. -/
theorem call_llm_go_transport (o : Nat → LLMOutcome) :
    ∀ (atts : List Nat) (q : List String), q ≠ [] →
      (∀ a ∈ atts, ∃ m, o a = .transportErr m) →
      ∃ r, call_llm_go o atts q = some r ∧ r.result = failSentinel ∧
        r.attempts = atts.length ∧
        r.sleeps = atts.dropLast.map (fun a => 2 ^ a) := by
  intro atts
  induction atts with
  | nil =>
    intro q hq _
    exact ⟨⟨failSentinel, q, 0, [], []⟩, rfl, rfl, rfl, rfl⟩
  | cons a rest ih =>
    intro q hq hall
    rcases q with _ | ⟨k, qrest⟩
    · exact absurd rfl hq
    obtain ⟨m, hm⟩ := hall a (by simp)
    simp only [call_llm_go]
    rw [hm]
    cases rest with
    | nil =>
      exact ⟨⟨failSentinel, qrest ++ [k], 1, [], [k]⟩, rfl, rfl, rfl, rfl⟩
    | cons a2 rest2 =>
      obtain ⟨r', hr', hres', hatt', hsl'⟩ :=
        ih (qrest ++ [k]) (by simp) (fun x hx => hall x (by simp [hx]))
      dsimp only
      rw [hr', Option.map_some']
      refine ⟨_, rfl, hres', by simp [hatt'], ?_⟩
      rw [List.dropLast_cons_of_ne_nil (show a2 :: rest2 ≠ [] by simp), List.map_cons, hsl']

/-- A 5xx terminates the call immediately from the second attempt on
(`attempt >= 1`). -/
theorem call_llm_go_5xx_terminal (o : Nat → LLMOutcome) (a : Nat) (rest : List Nat)
    (s : Nat) (b : String) (k : String) (qr : List String)
    (ha : 1 ≤ a) (ho : o a = .httpStatus s b) (hs : 500 ≤ s) :
    call_llm_go o (a :: rest) (k :: qr) = some ⟨err5xx s, qr ++ [k], 1, [], [k]⟩ := by
  simp only [call_llm_go]
  rw [ho]
  dsimp only
  rw [if_neg (by omega), if_neg (by omega), if_pos ⟨hs, ha⟩]

/-- A 5xx on the very first attempt falls through to the `2 ^ 0` backoff
and retries. -/
theorem call_llm_go_5xx_step0 (o : Nat → LLMOutcome) (a2 : Nat) (rest2 : List Nat)
    (s : Nat) (b : String) (k : String) (qr : List String)
    (ho : o 0 = .httpStatus s b) (hs : 500 ≤ s) :
    call_llm_go o (0 :: a2 :: rest2) (k :: qr) =
      (call_llm_go o (a2 :: rest2) (qr ++ [k])).map
        (fun r => ⟨r.result, r.queue, r.attempts + 1, 2 ^ 0 :: r.sleeps, k :: r.acquired⟩) := by
  conv_lhs => rw [call_llm_go]
  rw [ho]
  dsimp only
  rw [if_neg (show ¬(400 ≤ s ∧ s < 500 ∧ s ≠ 429) by omega),
    if_neg (show ¬s = 429 by omega),
    if_neg (show ¬(500 ≤ s ∧ 1 ≤ 0) by omega)]

/-- C3 (counterexample): with every attempt rate-limited (HTTP 429) the
loop does retry and exhausts its three attempts, but — because `continue`
skips the backoff block — it performs no `2 ^ attempt` wait at all, and it
never waits before acquiring the next slot. -/
theorem call_llm_429_skips_backoff :
    call_llm o429 qPool =
      some ⟨failSentinel, ["k2", "k1"], 3, [], ["k1", "k2", "k1"]⟩ ∧
    ([] : List Nat) ≠ [1, 2] := by
  exact ⟨by decide, by decide⟩

/-- C3 (amended): each LLM call makes at most 3 attempts; a 4xx other than
429 fails immediately with `"❌ AI 代理返回错误: <status>"` (the status
code — the response body is logged, not returned); on 429 the slot is
released and a new one acquired immediately, with no backoff wait; a 5xx
backs off `2 ^ attempt` only after the first attempt and already returns
`"❌ AI代理服务端错误: <status>"` (a `"❌"`-prefixed sentinel) at the second
5xx, using only 2 of the 3 attempts; transport errors back off
`2 ^ attempt` and, after all retries are exhausted, the call returns the
`"❌"`-prefixed `failSentinel`. -/
theorem call_llm_retry_policy :
    (∀ (o : Nat → LLMOutcome) (q : List String) (r : LLMRun),
        call_llm o q = some r → r.attempts ≤ 3) ∧
    (∀ (o : Nat → LLMOutcome) (k : String) (qr : List String) (s : Nat) (b : String),
        o 0 = .httpStatus s b → 400 ≤ s → s < 500 → s ≠ 429 →
        call_llm o (k :: qr) = some ⟨err4xx s, qr ++ [k], 1, [], [k]⟩) ∧
    (∀ (o : Nat → LLMOutcome) (q : List String),
        (∀ i, i < 3 → ∃ b, o i = .httpStatus 429 b) → q ≠ [] →
        ∃ r, call_llm o q = some r ∧ r.result = failSentinel ∧ r.attempts = 3 ∧
          r.sleeps = []) ∧
    (∀ (o : Nat → LLMOutcome) (q : List String) (s0 s1 : Nat) (b0 b1 : String),
        o 0 = .httpStatus s0 b0 → o 1 = .httpStatus s1 b1 → 500 ≤ s0 → 500 ≤ s1 →
        q ≠ [] →
        ∃ r, call_llm o q = some r ∧ r.result = err5xx s1 ∧ r.attempts = 2 ∧
          r.sleeps = [1]) ∧
    (∀ (o : Nat → LLMOutcome) (q : List String),
        (∀ i, i < 3 → ∃ m, o i = .transportErr m) → q ≠ [] →
        ∃ r, call_llm o q = some r ∧ r.result = failSentinel ∧ r.attempts = 3 ∧
          r.sleeps = [1, 2]) ∧
    (∀ (o : Nat → LLMOutcome) (k : String) (qr : List String) (rep : String),
        o 0 = .success rep →
        call_llm o (k :: qr) = some ⟨rep, qr ++ [k], 1, [], [k]⟩) := by
  refine ⟨?_, ?_, ?_, ?_, ?_, ?_⟩
  · intro o q r hr
    rcases q with _ | ⟨k, qrest⟩
    · simp [call_llm, call_llm_go] at hr
    obtain ⟨r', hr', _, hatt, _, _⟩ := call_llm_go_spec o [0, 1, 2] (k :: qrest) (by simp)
    rw [call_llm] at hr
    rw [hr'] at hr
    cases hr
    simpa using hatt
  · intro o k qr s b ho h400 h500 h429
    rw [call_llm]
    simp only [call_llm_go]
    rw [ho]
    dsimp only
    rw [if_pos ⟨h400, h500, h429⟩]
  · intro o q hall hq
    have hall' : ∀ a ∈ [0, 1, 2], ∃ b, o a = .httpStatus 429 b := by
      intro a ha
      refine hall a ?_
      simp at ha
      rcases ha with rfl | rfl | rfl <;> omega
    exact call_llm_go_429 o [0, 1, 2] q hq hall'
  · intro o q s0 s1 b0 b1 ho0 ho1 hs0 hs1 hq
    rcases q with _ | ⟨k, qr⟩
    · exact absurd rfl hq
    rw [call_llm, call_llm_go_5xx_step0 o 1 [2] s0 b0 k qr ho0 hs0]
    have hterm : ∀ (k2 : String) (qr2 : List String),
        call_llm_go o [1, 2] (k2 :: qr2) =
          some ⟨err5xx s1, qr2 ++ [k2], 1, [], [k2]⟩ :=
      fun k2 qr2 => call_llm_go_5xx_terminal o 1 [2] s1 b1 k2 qr2 (by omega) ho1 hs1
    rcases qr with _ | ⟨k2, qr2⟩
    · simp only [List.nil_append]
      rw [hterm k [], Option.map_some']
      exact ⟨_, rfl, rfl, rfl, rfl⟩
    · simp only [List.cons_append]
      rw [hterm k2 (qr2 ++ [k]), Option.map_some']
      exact ⟨_, rfl, rfl, rfl, rfl⟩
  · intro o q hall hq
    have hall' : ∀ a ∈ [0, 1, 2], ∃ m, o a = .transportErr m := by
      intro a ha
      refine hall a ?_
      simp at ha
      rcases ha with rfl | rfl | rfl <;> omega
    obtain ⟨r, hr, hres, hatt, hsl⟩ := call_llm_go_transport o [0, 1, 2] q hq hall'
    refine ⟨r, hr, hres, hatt, ?_⟩
    rw [hsl]
    decide
  · intro o k qr rep ho
    rw [call_llm]
    simp only [call_llm_go]
    rw [ho]

/-- C3 (witness): the amended retry facts evaluated at concrete outcome
streams and the two-key pool. -/
theorem call_llm_retry_policy_witness :
    call_llm o404 qPool = some ⟨err4xx 404, ["k2", "k1"], 1, [], ["k1"]⟩ ∧
    (∃ r, call_llm o500 qPool = some r ∧ r.result = err5xx 500 ∧ r.attempts = 2 ∧
      r.sleeps = [1]) ∧
    (∃ r, call_llm oTransport qPool = some r ∧ r.result = failSentinel ∧
      r.attempts = 3 ∧ r.sleeps = [1, 2]) ∧
    call_llm oSuccess qPool = some ⟨"hi", ["k2", "k1"], 1, [], ["k1"]⟩ := by
  refine ⟨?_, ?_, ?_, ?_⟩
  · exact call_llm_retry_policy.2.1 o404 "k1" ["k2"] 404 "Not Found" rfl (by omega)
      (by omega) (by omega)
  · exact call_llm_retry_policy.2.2.2.1 o500 qPool 500 500 "upstream error"
      "upstream error" rfl rfl (by omega) (by omega) (by decide)
  · exact call_llm_retry_policy.2.2.2.2.1 oTransport qPool
      (fun i _ => ⟨"connection reset", rfl⟩) (by decide)
  · exact call_llm_retry_policy.2.2.2.2.2 oSuccess "k1" ["k2"] "hi" rfl

/-- C4: the credential pool is pre-filled with exactly
`len(effective_keys) × per_key_concurrency` slot items, all of which are
configured keys; and on a non-empty pool every `_call_llm` run acquires
exactly one key per attempt, each of them a key of the pool, and returns
the acquired slot on every exit path — the final queue is a permutation of
(in particular, has the same length as) the initial one. -/
theorem credential_pool_slot_accounting :
    (∀ (keys : List String) (c : Nat), (init_pool keys c).length = keys.length * c) ∧
    (∀ (keys : List String) (c : Nat) (k : String), k ∈ init_pool keys c → k ∈ keys) ∧
    (∀ (o : Nat → LLMOutcome) (q : List String), q ≠ [] →
      ∃ r, call_llm o q = some r ∧ r.queue.Perm q ∧ r.queue.length = q.length ∧
        r.acquired.length = r.attempts ∧ (∀ k ∈ r.acquired, k ∈ q)) := by
  refine ⟨?_, ?_, ?_⟩
  · intro keys c
    induction keys with
    | nil => simp [init_pool]
    | cons k t ih =>
      have hstep : (init_pool (k :: t) c).length = c + (init_pool t c).length := by
        simp [init_pool]
      rw [hstep, ih, List.length_cons]
      ring
  · intro keys c k hk
    have hm : k ∈ keys ∧ ¬c = 0 := by simpa [init_pool] using hk
    exact hm.1
  · intro o q hq
    obtain ⟨r, hr, hperm, _, hlen, hmem⟩ := call_llm_go_spec o [0, 1, 2] q hq
    exact ⟨r, hr, hperm, hperm.length_eq, hlen, hmem⟩

/-- C4 (witness): the pool facts evaluated at two concrete keys with
concurrency 3, and one concrete run on that pool. -/
theorem credential_pool_slot_accounting_witness :
    (init_pool ["a", "b"] 3).length = 2 * 3 ∧
    ("a" ∈ init_pool ["a", "b"] 3 → "a" ∈ ["a", "b"]) ∧
    (∃ r, call_llm oSuccess (init_pool ["a", "b"] 3) = some r ∧
      r.queue.Perm (init_pool ["a", "b"] 3) ∧
      r.queue.length = (init_pool ["a", "b"] 3).length ∧
      r.acquired.length = r.attempts ∧
      (∀ k ∈ r.acquired, k ∈ init_pool ["a", "b"] 3)) := by
  refine ⟨?_, ?_, ?_⟩
  · exact credential_pool_slot_accounting.1 ["a", "b"] 3
  · exact credential_pool_slot_accounting.2.1 ["a", "b"] 3 "a"
  · exact credential_pool_slot_accounting.2.2 oSuccess (init_pool ["a", "b"] 3) (by decide)

/-- The keys `aKey n` are pairwise distinct. -/
theorem aKey_inj : Function.Injective aKey := by
  intro m n h
  have hl := congrArg String.length h
  simpa [aKey, String.length] using hl

/-- The key lists `alertKeys n` have no duplicates. -/
theorem alertKeys_nodup (n : Nat) : (alertKeys n).Nodup :=
  (List.nodup_range n).map aKey_inj

/-- One `dedup_record` step preserves the mirror invariant: the set equals
the deque contents, the deque has no duplicates, and its length is at most
the capacity. -/
theorem dedup_record_inv (cap : Nat) (hcap : 0 < cap) (s : DedupState) (k : String)
    (h1 : s.ids = s.deque.toFinset) (h2 : s.deque.Nodup) (h3 : s.deque.length ≤ cap) :
    (dedup_record cap s k).ids = (dedup_record cap s k).deque.toFinset ∧
    (dedup_record cap s k).deque.Nodup ∧
    (dedup_record cap s k).deque.length ≤ cap := by
  by_cases hk : k ∈ s.ids
  · simp only [dedup_record, if_pos hk]
    exact ⟨h1, h2, h3⟩
  · have hkd : k ∉ s.deque := by
      rw [h1, List.mem_toFinset] at hk
      exact hk
    simp only [dedup_record, if_neg hk]
    by_cases hfull : s.deque.length = cap
    · rw [if_pos hfull]
      rcases hd : s.deque with _ | ⟨h0, t⟩
      · exfalso
        rw [hd] at hfull
        simp at hfull
        omega
      · rw [hd] at h1 h2 h3 hkd hfull
        have hnd := List.nodup_cons.mp h2
        have hkt : k ∉ t := fun hc => hkd (by simp [hc])
        simp only [List.headD_cons, List.tail_cons]
        refine ⟨?_, ?_, ?_⟩
        · rw [h1, List.toFinset_cons,
            Finset.erase_insert (by rw [List.mem_toFinset]; exact hnd.1),
            List.toFinset_append]
          ext x
          simp [or_comm]
        · rw [List.nodup_append]
          exact ⟨hnd.2, List.nodup_singleton k, fun x hx hx2 => by
            rw [List.mem_singleton] at hx2
            rw [hx2] at hx
            exact hkt hx⟩
        · rw [List.length_append]
          simp only [List.length_cons] at hfull
          simp only [List.length_singleton]
          omega
    · rw [if_neg hfull]
      refine ⟨?_, ?_, ?_⟩
      · rw [h1, List.toFinset_append]
        ext x
        simp [or_comm]
      · rw [List.nodup_append]
        exact ⟨h2, List.nodup_singleton k, fun x hx hx2 => by
          rw [List.mem_singleton] at hx2
          rw [hx2] at hx
          exact hkd hx⟩
      · rw [List.length_append]
        simp only [List.length_singleton]
        omega

/-- The mirror invariant holds after processing any key sequence from the
fresh state. -/
theorem dedup_run_inv (cap : Nat) (hcap : 0 < cap) (ks : List String) :
    (dedup_run cap ks).ids = (dedup_run cap ks).deque.toFinset ∧
    (dedup_run cap ks).deque.Nodup ∧
    (dedup_run cap ks).deque.length ≤ cap := by
  have aux : ∀ (l : List String) (s : DedupState),
      (s.ids = s.deque.toFinset ∧ s.deque.Nodup ∧ s.deque.length ≤ cap) →
      ((l.foldl (dedup_record cap) s).ids = (l.foldl (dedup_record cap) s).deque.toFinset ∧
        (l.foldl (dedup_record cap) s).deque.Nodup ∧
        (l.foldl (dedup_record cap) s).deque.length ≤ cap) := by
    intro l
    induction l with
    | nil => exact fun s hs => hs
    | cons k t ih =>
      intro s hs
      exact ih (dedup_record cap s k) (dedup_record_inv cap hcap s k hs.1 hs.2.1 hs.2.2)
  exact aux ks ⟨[], ∅⟩ ⟨by simp, List.nodup_nil, by simp⟩

/-- After processing a sequence of pairwise-distinct keys, the deque holds
exactly the last `cap` keys of the sequence, in order. -/
theorem dedup_run_nodup_deque (cap : Nat) (hcap : 0 < cap) :
    ∀ ks : List String, ks.Nodup →
      (dedup_run cap ks).deque = ks.drop (ks.length - cap) := by
  intro ks
  induction ks using List.reverseRecOn with
  | nil => intro _; simp [dedup_run]
  | append_singleton l k ih =>
    intro hnd
    have hl : l.Nodup := (List.nodup_append.mp hnd).1
    have hkl : k ∉ l := by
      have hdisj := (List.nodup_append.mp hnd).2.2
      intro hc
      exact hdisj hc (by simp)
    have hrun : dedup_run cap (l ++ [k]) = dedup_record cap (dedup_run cap l) k := by
      simp [dedup_run, List.foldl_append]
    obtain ⟨hids, hdnd, hdlen⟩ := dedup_run_inv cap hcap l
    have hdeq := ih hl
    have hknotin : k ∉ (dedup_run cap l).ids := by
      rw [hids, List.mem_toFinset, hdeq]
      intro hc
      exact hkl (List.drop_subset _ _ hc)
    rw [hrun]
    simp only [dedup_record, if_neg hknotin]
    by_cases hfull : (dedup_run cap l).deque.length = cap
    · rw [if_pos hfull]
      have hlencap : cap ≤ l.length := by
        rw [hdeq, List.length_drop] at hfull
        omega
      have harith : l.length + 1 - cap = (l.length - cap) + 1 := by omega
      rw [List.length_append, List.length_singleton, harith,
        List.drop_append_of_le_length (by omega), hdeq, List.tail_drop]
    · rw [if_neg hfull]
      have hlt : l.length < cap := by
        rw [hdeq, List.length_drop] at hfull
        omega
      have h0 : l.length - cap = 0 := by omega
      have h1 : l.length + 1 - cap = 0 := by omega
      rw [List.length_append, List.length_singleton, h1, List.drop_zero, hdeq, h0,
        List.drop_zero]

/-- A key already in the set is skipped. -/
theorem dedup_record_skip (cap : Nat) (s : DedupState) (k : String) (hk : k ∈ s.ids) :
    dedup_record cap s k = s := by
  unfold dedup_record
  rw [if_pos hk]

/-- A fresh key at capacity evicts the deque head. -/
theorem dedup_record_full (cap : Nat) (s : DedupState) (k : String)
    (hk : k ∉ s.ids) (hfull : s.deque.length = cap) :
    dedup_record cap s k =
      ⟨s.deque.tail ++ [k], insert k (s.ids.erase (s.deque.headD ""))⟩ := by
  unfold dedup_record
  rw [if_neg hk, if_pos hfull]

/-- Splitting a run over one appended key. -/
theorem dedup_run_snoc (cap : Nat) (l : List String) (k : String) :
    dedup_run cap (l ++ [k]) = dedup_record cap (dedup_run cap l) k := by
  rw [dedup_run, List.foldl_append]
  rfl

set_option maxRecDepth 4000 in
set_option linter.constructorNameAsVariable false in
set_option linter.unusedVariables false in
/-- C5 (counterexample): process 2000 distinct keys, re-offer the first key
(which is still cached, so `check_message` skips it without refreshing its
FIFO position) and then one fresh key.  The fresh key evicts the first key,
yet the first key is among the 2000 most recent distinct keys of the
sequence — so the "most-recent 2000 distinct keys are all members" part of
the claim fails. -/
theorem alert_dedup_recency_violated :
    aKey 0 ∈ most_recent_distinct alertCounterSeq 2000 ∧
    aKey 0 ∉ (dedup_run alertDequeCap alertCounterSeq).ids := by
  have hcap : (0 : Nat) < alertDequeCap := by norm_num [alertDequeCap]
  have hinj01 : aKey 2000 ≠ aKey 0 := fun h => by
    have := aKey_inj h
    omega
  have hnodup : (alertKeys 2000).Nodup := alertKeys_nodup 2000
  have hlen : (alertKeys 2000).length = 2000 := by
    rw [alertKeys, List.length_map, List.length_range]
  have htake : ∀ (x y : String) (L : List String) (n : Nat), 2 ≤ n →
      y ∈ (x :: y :: L).take n := by
    intro x y L n hn
    match n, hn with
    | n + 2, _ =>
      rw [List.take_succ_cons, List.take_succ_cons]
      simp
  constructor
  · have hrev : alertCounterSeq.reverse =
        aKey 2000 :: aKey 0 :: (alertKeys 2000).reverse := by
      rw [alertCounterSeq, List.reverse_append]
      simp only [List.reverse_cons, List.reverse_nil, List.nil_append, List.cons_append]
    have hmem2 : aKey 0 ∉ [aKey 2000] := by
      intro hc
      rw [List.mem_singleton] at hc
      exact hinj01 hc.symm
    have hgo : ∀ (x y : String) (L : List String), y ∉ [x] →
        dedupKeepFirstGo [] (x :: y :: L) = x :: y :: dedupKeepFirstGo [y, x] L := by
      intro x y L hyx
      rw [dedupKeepFirstGo, if_neg (List.not_mem_nil x), dedupKeepFirstGo, if_neg hyx]
    unfold most_recent_distinct dedupKeepFirst
    rw [hrev, hgo _ _ _ hmem2]
    exact htake _ _ _ 2000 (by norm_num)
  · have hfold : dedup_run alertDequeCap alertCounterSeq =
        dedup_record alertDequeCap
          (dedup_record alertDequeCap (dedup_run alertDequeCap (alertKeys 2000)) (aKey 0))
          (aKey 2000) := by
      have hsplit : alertCounterSeq = (alertKeys 2000 ++ [aKey 0]) ++ [aKey 2000] := by
        rw [alertCounterSeq, List.append_assoc]
        rfl
      rw [hsplit, dedup_run_snoc, dedup_run_snoc]
    obtain ⟨hids, hdnd, hdlen⟩ := dedup_run_inv alertDequeCap hcap (alertKeys 2000)
    have hdeq : (dedup_run alertDequeCap (alertKeys 2000)).deque = alertKeys 2000 := by
      rw [dedup_run_nodup_deque alertDequeCap hcap (alertKeys 2000) hnodup, hlen,
        show (2000 : Nat) - alertDequeCap = 0 from rfl, List.drop_zero]
    have hset : (dedup_run alertDequeCap (alertKeys 2000)).ids =
        (alertKeys 2000).toFinset := by
      rw [hids, hdeq]
    have h0mem : aKey 0 ∈ alertKeys 2000 :=
      List.mem_map.mpr ⟨0, List.mem_range.mpr (by norm_num), rfl⟩
    have h0ids : aKey 0 ∈ (dedup_run alertDequeCap (alertKeys 2000)).ids := by
      rw [hset]
      exact List.mem_toFinset.mpr h0mem
    have h2000notin : aKey 2000 ∉ (dedup_run alertDequeCap (alertKeys 2000)).ids := by
      rw [hset]
      intro hc
      rcases List.mem_map.mp (List.mem_toFinset.mp hc) with ⟨i, hi, hik⟩
      have := aKey_inj hik
      rw [List.mem_range] at hi
      omega
    have hfull : (dedup_run alertDequeCap (alertKeys 2000)).deque.length = alertDequeCap := by
      rw [hdeq, hlen]
      rfl
    have hex : ∃ rest, alertKeys 2000 = aKey 0 :: rest := by
      refine ⟨(List.map Nat.succ (List.range 1999)).map aKey, ?_⟩
      rw [alertKeys, show (2000 : Nat) = 1999 + 1 from rfl, List.range_succ_eq_map]
      rfl
    obtain ⟨rest, hrest⟩ := hex
    have hhead : (dedup_run alertDequeCap (alertKeys 2000)).deque.headD "" = aKey 0 := by
      rw [hdeq, hrest]
      rfl
    rw [hfold]
    generalize hgen : dedup_run alertDequeCap (alertKeys 2000) = s0
      at h0ids h2000notin hfull hhead ⊢
    rw [dedup_record_skip alertDequeCap s0 (aKey 0) h0ids,
      dedup_record_full alertDequeCap s0 (aKey 2000) h2000notin hfull]
    dsimp only
    rw [hhead]
    intro hc
    rcases Finset.mem_insert.mp hc with h | h
    · exact hinj01 h.symm
    · exact Finset.not_mem_erase (aKey 0) _ h


/-- C5 (amended): the mirror invariant holds unconditionally — after any
sequence of matched alert keys the in-memory set holds exactly the deque's
contents and has size at most 2000; and for any sequence of
pairwise-distinct keys with more than 2000 of them, the set has exactly
2000 members and contains every one of the 2000 most recent distinct keys.
(With repeated offers of a still-cached key the FIFO position is not
refreshed, so the recency guarantee holds for the 2000 most recently
*inserted* keys, not for last-occurrence recency — see the
counterexample.) -/
theorem alert_dedup_fifo_bound :
    (∀ ks : List String,
      (dedup_run alertDequeCap ks).ids = (dedup_run alertDequeCap ks).deque.toFinset ∧
      (dedup_run alertDequeCap ks).ids.card ≤ 2000) ∧
    (∀ ks : List String, ks.Nodup → 2000 < ks.length →
      (dedup_run alertDequeCap ks).ids.card = 2000 ∧
      ∀ k ∈ most_recent_distinct ks 2000, k ∈ (dedup_run alertDequeCap ks).ids) := by
  have hcap : (0 : Nat) < alertDequeCap := by norm_num [alertDequeCap]
  constructor
  · intro ks
    obtain ⟨hids, hdnd, hdlen⟩ := dedup_run_inv alertDequeCap hcap ks
    refine ⟨hids, ?_⟩
    rw [hids]
    calc (dedup_run alertDequeCap ks).deque.toFinset.card
        ≤ (dedup_run alertDequeCap ks).deque.length := List.toFinset_card_le _
      _ ≤ 2000 := hdlen
  · intro ks hnd hgt
    obtain ⟨hids, hdnd, hdlen⟩ := dedup_run_inv alertDequeCap hcap ks
    have hdeq := dedup_run_nodup_deque alertDequeCap hcap ks hnd
    constructor
    · rw [hids, List.toFinset_card_of_nodup hdnd, hdeq, List.length_drop]
      show ks.length - (ks.length - alertDequeCap) = 2000
      rw [show alertDequeCap = 2000 from rfl]
      omega
    · intro k hk
      rw [hids, hdeq, List.mem_toFinset]
      unfold most_recent_distinct at hk
      rw [dedupKeepFirst, dedupKeepFirstGo_of_nodup [] ks.reverse (List.nodup_reverse.mpr hnd) (by simp)] at hk
      rw [List.take_reverse] at hk
      rw [List.mem_reverse] at hk
      rw [show alertDequeCap = 2000 from rfl]
      exact hk

/-- C5 (witness): the amended FIFO-bound facts evaluated at 2001 distinct
keys. -/
theorem alert_dedup_fifo_bound_witness :
    (dedup_run alertDequeCap (alertKeys 2001)).ids.card = 2000 ∧
    ∀ k ∈ most_recent_distinct (alertKeys 2001) 2000,
      k ∈ (dedup_run alertDequeCap (alertKeys 2001)).ids :=
  alert_dedup_fifo_bound.2 (alertKeys 2001) (alertKeys_nodup 2001)
    (by rw [alertKeys, List.length_map, List.length_range]; norm_num)

/-- The three chunk requests issued for a 650-message window. -/
theorem chunkReqs_650 (sys : String) (msgs : List MsgRec) (gm : List (Int × String))
    (hlen : msgs.length = 650) :
    chunkReqs sys msgs gm =
      [mkLLMReq sys (format_messages (msgs.take 300) gm) (chunkExtraInstruction 1 3) false,
       mkLLMReq sys (format_messages ((msgs.drop 300).take 300) gm)
         (chunkExtraInstruction 2 3) false,
       mkLLMReq sys (format_messages ((msgs.drop 600).take 300) gm)
         (chunkExtraInstruction 3 3) false] := by
  unfold chunkReqs
  rw [hlen]
  rw [show chunkStarts 650 = [0, 300, 600] from by decide]
  simp only [List.map_cons, List.map_nil, List.drop_zero]

/-- The merge branch of `_summarize_chunked`, for any window whose
filtered chunk results number more than one. -/
theorem summarize_chunked_merge_branch (llm : LLMReq → String) (sys : String)
    (msgs : List MsgRec) (gm : List (Int × String))
    (hgt : 1 < ((chunk_results llm sys msgs gm).filter (fun r => r ≠ "")).length) :
    summarize_chunked llm sys msgs gm =
      ((if llm (mkLLMReq sys (mergePromptHead ++ joinSep "\n\n---\n\n"
            ((chunk_results llm sys msgs gm).filter (fun r => r ≠ ""))) "" true) ≠ "" then
          llm (mkLLMReq sys (mergePromptHead ++ joinSep "\n\n---\n\n"
            ((chunk_results llm sys msgs gm).filter (fun r => r ≠ ""))) "" true)
        else joinSep "\n\n---\n\n"
          ((chunk_results llm sys msgs gm).filter (fun r => r ≠ ""))),
       chunkReqs sys msgs gm ++
        [mkLLMReq sys (mergePromptHead ++ joinSep "\n\n---\n\n"
          ((chunk_results llm sys msgs gm).filter (fun r => r ≠ ""))) "" true]) := by
  unfold summarize_chunked
  dsimp only
  rw [show (chunkReqs sys msgs gm).map llm = chunk_results llm sys msgs gm from rfl]
  rw [if_pos hgt]

/-- The non-empty long-window branch of `summarize`. -/
theorem summarize_chunked_path (llm : LLMReq → String) (sys : String)
    (msgs : List MsgRec) (gm : List (Int × String)) (save : Bool)
    (hne : msgs ≠ []) (hlong : 300 < msgs.length) :
    summarize llm sys msgs gm save =
      (clean_markdown (summarize_chunked llm sys msgs gm).1,
       (summarize_chunked llm sys msgs gm).2,
       (clean_markdown (summarize_chunked llm sys msgs gm).1 != "") && save) := by
  have hisEmpty : msgs.isEmpty = false := by
    rcases msgs with _ | ⟨m, t⟩
    · exact absurd rfl hne
    · rfl
  unfold summarize
  rw [hisEmpty]
  simp only [Bool.false_eq_true, if_false]
  rw [if_pos hlong]

/-- C1 (counterexample): for a 650-message window in which every chunk call
fails with the retry-exhausted `"❌"` sentinel, the merge call is still
issued — its prompt contains the three failure strings, because the
`if r` filter keeps any non-empty string — and, the cleaned summary being
the non-empty `"❌"` sentinel, a summaries row IS inserted, contradicting
"the merge prompt is built only from the successful chunk results" and "no
row is inserted into the summaries table". -/
theorem summarize_all_fail_still_saves :
    (summarize llmAllFail "" msgs650 [] true).1 = failSentinel ∧
    (summarize llmAllFail "" msgs650 [] true).2.2 = true ∧
    ((summarize llmAllFail "" msgs650 [] true).2.1.map LLMReq.isMerge =
      [false, false, false, true]) ∧
    (((summarize llmAllFail "" msgs650 [] true).2.1.getLast?).map LLMReq.user =
      some (mergePromptHead ++ (failSentinel ++ "\n\n---\n\n" ++
        (failSentinel ++ "\n\n---\n\n" ++ failSentinel)))) := by
  have hlen : msgs650.length = 650 := by rw [msgs650, List.length_replicate]
  have hnil : msgs650 ≠ [] := by
    intro h
    have hc := congrArg List.length h
    rw [hlen] at hc
    simp at hc
  have h300 : 300 < msgs650.length := by rw [hlen]; norm_num
  have hcr : chunk_results llmAllFail "" msgs650 [] =
      [failSentinel, failSentinel, failSentinel] := by
    unfold chunk_results
    rw [chunkReqs_650 "" msgs650 [] hlen]
    rfl
  have hfilter : (chunk_results llmAllFail "" msgs650 []).filter (fun r => r ≠ "") =
      [failSentinel, failSentinel, failSentinel] := by
    rw [hcr]
    decide
  have hgt : 1 < ((chunk_results llmAllFail "" msgs650 []).filter (fun r => r ≠ "")).length := by
    rw [hfilter]
    norm_num
  have hchunked := summarize_chunked_merge_branch llmAllFail "" msgs650 [] hgt
  have hpath := summarize_chunked_path llmAllFail "" msgs650 [] true hnil h300
  rw [hfilter] at hchunked
  have hmergeRes : llmAllFail (mkLLMReq "" (mergePromptHead ++ joinSep "\n\n---\n\n"
      [failSentinel, failSentinel, failSentinel]) "" true) = failSentinel := rfl
  rw [hmergeRes, if_pos (show failSentinel ≠ "" from by decide)] at hchunked
  refine ⟨?_, ?_, ?_, ?_⟩
  · rw [hpath, hchunked]
    decide
  · rw [hpath, hchunked]
    decide
  · rw [hpath, hchunked]
    dsimp only
    rw [List.map_append, chunkReqs_650 "" msgs650 [] hlen]
    rfl
  · rw [hpath, hchunked]
    dsimp only
    rw [List.getLast?_concat]
    decide

/-- C1 (amended): for a 650-message window, `summarize` issues exactly 3
chunk calls and (whenever every chunk reply is non-empty, as the `"❌"`
failure strings always are) exactly 1 merge call, in that order; the merge
prompt is built from ALL chunk results — `"❌"`-prefixed failures included,
since the code filters only Python-falsy (empty) strings; and a summaries
row is written exactly when the scrubbed final report is non-empty and
`save` is set, regardless of whether the chunk calls failed. -/
theorem summarize_650_behavior :
    ∀ (llm : LLMReq → String) (sys : String) (msgs : List MsgRec)
      (gm : List (Int × String)) (save : Bool),
      msgs.length = 650 →
      (∀ q : LLMReq, q.isMerge = false → llm q ≠ "") →
      ((summarize llm sys msgs gm save).2.1.map LLMReq.isMerge =
        [false, false, false, true]) ∧
      ((summarize llm sys msgs gm save).2.1.getLast? =
        some (mkLLMReq sys (mergePromptHead ++
          joinSep "\n\n---\n\n" (chunk_results llm sys msgs gm)) "" true)) ∧
      ((summarize llm sys msgs gm save).2.2 =
        (((summarize llm sys msgs gm save).1 != "") && save)) := by
  intro llm sys msgs gm save hlen hne
  have hnil : msgs ≠ [] := by
    intro h
    rw [h] at hlen
    simp at hlen
  have h300 : 300 < msgs.length := by
    rw [hlen]
    norm_num
  have hreqs := chunkReqs_650 sys msgs gm hlen
  have hmerge0 : ∀ q ∈ chunkReqs sys msgs gm, q.isMerge = false := by
    intro q hq
    rw [hreqs] at hq
    rcases List.mem_cons.mp hq with rfl | hq
    · rfl
    rcases List.mem_cons.mp hq with rfl | hq
    · rfl
    rcases List.mem_cons.mp hq with rfl | hq
    · rfl
    exact absurd hq (List.not_mem_nil q)
  have hfilter : (chunk_results llm sys msgs gm).filter (fun r => r ≠ "") =
      chunk_results llm sys msgs gm := by
    rw [List.filter_eq_self]
    intro a ha
    rcases List.mem_map.mp ha with ⟨q, hq, rfl⟩
    simpa using hne q (hmerge0 q hq)
  have hlen3 : (chunk_results llm sys msgs gm).length = 3 := by
    unfold chunk_results
    rw [hreqs]
    rfl
  have hgt : 1 < ((chunk_results llm sys msgs gm).filter (fun r => r ≠ "")).length := by
    rw [hfilter, hlen3]
    norm_num
  have hchunked := summarize_chunked_merge_branch llm sys msgs gm hgt
  have hpath := summarize_chunked_path llm sys msgs gm save hnil h300
  rw [hfilter] at hchunked
  refine ⟨?_, ?_, ?_⟩
  · rw [hpath, hchunked]
    dsimp only
    rw [List.map_append, hreqs]
    rfl
  · rw [hpath, hchunked]
    dsimp only
    rw [List.getLast?_concat]
  · rw [hpath]

/-- C1 (witness): the amended behavior evaluated at the all-fail LLM and
the concrete 650-message window. -/
theorem summarize_650_behavior_witness :
    ((summarize llmAllFail "" msgs650 [] true).2.1.map LLMReq.isMerge =
      [false, false, false, true]) ∧
    ((summarize llmAllFail "" msgs650 [] true).2.2 =
      (((summarize llmAllFail "" msgs650 [] true).1 != "") && true)) := by
  have h := summarize_650_behavior llmAllFail "" msgs650 [] true
    (by rw [msgs650, List.length_replicate]) (fun q _ => show failSentinel ≠ "" from by decide)
  exact ⟨h.1, h.2.2⟩

/-- The two chunk requests issued for a 301-message window. -/
theorem chunkReqs_301 (sys : String) (msgs : List MsgRec) (gm : List (Int × String))
    (hlen : msgs.length = 301) :
    chunkReqs sys msgs gm =
      [mkLLMReq sys (format_messages (msgs.take 300) gm) (chunkExtraInstruction 1 2) false,
       mkLLMReq sys (format_messages ((msgs.drop 300).take 300) gm)
         (chunkExtraInstruction 2 2) false] := by
  unfold chunkReqs
  rw [hlen]
  rw [show chunkStarts 301 = [0, 300] from by decide]
  simp only [List.map_cons, List.map_nil, List.drop_zero]

/-- Chunk results of the merge-failing LLM on the 301-message window. -/
theorem chunk_results_301_mergeFail :
    chunk_results llmMergeFail "" msgs301 [] = ["A", "A"] := by
  unfold chunk_results
  rw [chunkReqs_301 "" msgs301 [] (by rw [msgs301, List.length_replicate])]
  rfl

/-- Chunk results of the merge-empty LLM on the 301-message window. -/
theorem chunk_results_301_mergeEmpty :
    chunk_results llmMergeEmpty "" msgs301 [] = ["A", "A"] := by
  unfold chunk_results
  rw [chunkReqs_301 "" msgs301 [] (by rw [msgs301, List.length_replicate])]
  rfl

/-- C2 (counterexample): a 301-message window gives two chunks; both chunk
calls succeed with `"A"`, the merge call fails with the `"❌"` retry
sentinel — and the returned report is that sentinel, not the
`"---"`-joined concatenation of the successful partials, because
`final or joined` only falls back on an empty string and the failure
sentinel is non-empty. -/
theorem summarize_chunked_merge_fail_returns_sentinel :
    (summarize_chunked llmMergeFail "" msgs301 []).1 = failSentinel ∧
    chunk_results llmMergeFail "" msgs301 [] = ["A", "A"] ∧
    (summarize_chunked llmMergeFail "" msgs301 []).1 ≠ "A\n\n---\n\nA" := by
  have hfilter : (chunk_results llmMergeFail "" msgs301 []).filter (fun r => r ≠ "") =
      ["A", "A"] := by
    rw [chunk_results_301_mergeFail]
    decide
  have hgt : 1 < ((chunk_results llmMergeFail "" msgs301 []).filter (fun r => r ≠ "")).length := by
    rw [hfilter]
    norm_num
  have hchunked := summarize_chunked_merge_branch llmMergeFail "" msgs301 [] hgt
  rw [hfilter] at hchunked
  have hmergeRes : llmMergeFail (mkLLMReq "" (mergePromptHead ++ joinSep "\n\n---\n\n"
      ["A", "A"]) "" true) = failSentinel := rfl
  rw [hmergeRes, if_pos (show failSentinel ≠ "" from by decide)] at hchunked
  refine ⟨?_, chunk_results_301_mergeFail, ?_⟩
  · rw [hchunked]
  · rw [hchunked]
    decide

/-- C2 (amended): when the merge LLM call returns an empty (Python-falsy)
reply, the chunked report is the `"\n\n---\n\n"`-joined concatenation of
the non-empty chunk partials; when the merge call fails with the `"❌"`
sentinel, that sentinel is returned instead.  In either case the report is
non-empty whenever at least one chunk partial is non-empty. -/
theorem summarize_chunked_fallback :
    ∀ (llm : LLMReq → String) (sys : String) (msgs : List MsgRec)
      (gm : List (Int × String)),
      (1 < ((chunk_results llm sys msgs gm).filter (fun r => r ≠ "")).length →
        llm (mkLLMReq sys (mergePromptHead ++ joinSep "\n\n---\n\n"
          ((chunk_results llm sys msgs gm).filter (fun r => r ≠ ""))) "" true) = "" →
        (summarize_chunked llm sys msgs gm).1 =
          joinSep "\n\n---\n\n"
            ((chunk_results llm sys msgs gm).filter (fun r => r ≠ ""))) ∧
      (((chunk_results llm sys msgs gm).filter (fun r => r ≠ "")) ≠ [] →
        (summarize_chunked llm sys msgs gm).1 ≠ "") := by
  intro llm sys msgs gm
  have hne : ∀ x ∈ (chunk_results llm sys msgs gm).filter (fun r => r ≠ ""), x ≠ "" := by
    intro x hx
    have := List.of_mem_filter hx
    simpa using this
  constructor
  · intro hgt hempty
    have hchunked := summarize_chunked_merge_branch llm sys msgs gm hgt
    rw [hchunked]
    dsimp only
    rw [if_neg (by simpa using hempty)]
  · intro hnonempty
    unfold summarize_chunked
    dsimp only
    rw [show (chunkReqs sys msgs gm).map llm = chunk_results llm sys msgs gm from rfl]
    by_cases hgt : 1 < ((chunk_results llm sys msgs gm).filter (fun r => r ≠ "")).length
    · rw [if_pos hgt]
      dsimp only
      by_cases hfin : llm (mkLLMReq sys (mergePromptHead ++ joinSep "\n\n---\n\n"
          ((chunk_results llm sys msgs gm).filter (fun r => r ≠ ""))) "" true) = ""
      · rw [if_neg (by simpa using hfin)]
        exact joinSep_ne_empty _ _ hne hnonempty
      · rw [if_pos hfin]
        exact hfin
    · rw [if_neg hgt]
      rcases hcase : (chunk_results llm sys msgs gm).filter (fun r => r ≠ "") with _ | ⟨s, t⟩
      · exact absurd hcase hnonempty
      · have ht : t = [] := by
          rcases t with _ | ⟨s2, t2⟩
          · rfl
          · exfalso
            apply hgt
            rw [hcase]
            simp
        subst ht
        rw [if_pos (show (s :: ([] : List String)).length = 1 from rfl)]
        exact hne s (by rw [hcase]; exact List.mem_cons_self s [])

/-- C2 (witness): the fallback facts evaluated with a merge call returning
an empty reply on the concrete 301-message window. -/
theorem summarize_chunked_fallback_witness :
    (summarize_chunked llmMergeEmpty "" msgs301 []).1 =
      joinSep "\n\n---\n\n"
        ((chunk_results llmMergeEmpty "" msgs301 []).filter (fun r => r ≠ "")) ∧
    (summarize_chunked llmMergeFail "" msgs301 []).1 ≠ "" := by
  constructor
  · exact (summarize_chunked_fallback llmMergeEmpty "" msgs301 []).1
      (by rw [chunk_results_301_mergeEmpty]; decide)
      (by rw [chunk_results_301_mergeEmpty]; rfl)
  · exact (summarize_chunked_fallback llmMergeFail "" msgs301 []).2
      (by rw [chunk_results_301_mergeFail]; decide)

end TgMonitor
